import Mathlib

/-!
Shallow embedding of `src/dlfs/layers.py`: `DenseLayer`, `ConvolutionalLayer`
and `ReshapeLayer`, together with the array primitives they consume
(`scipy.signal.correlate2d` in valid mode, `scipy.signal.convolve2d` in full
mode, numpy matrix product, transpose, axis sums and reshape) and the two
helpers `dilate` and `pad_to_shape` imported from `dlfs.helpers`, whose file
is not part of the repository snapshot and is therefore modelled from the
spec.  A matrix is a list of rows of integers (the layer algorithms use only
ring operations — add and multiply — so the floating-point entries are
modelled by an exact numeric type); higher-rank arrays are nested lists.
Randomness (`np.random.randn`) is modelled by arbitrary supplied arrays whose
shapes the theorems hypothesise to be the allocated ones.
-/

abbrev Mat : Type := List (List ℤ)
abbrev Tensor3 : Type := List Mat
abbrev Tensor4 : Type := List Tensor3

/-- Number of rows (`arr.shape[0]`). -/
def matH (m : Mat) : ℕ := m.length

/-- Number of columns (`arr.shape[1]`, read off the first row). -/
def matW (m : Mat) : ℕ := (m.headD []).length

/-- Entry `arr[y, x]`, with 0 outside the array; the embedding only ever reads
in-range entries of well-shaped arrays. -/
def entry (m : Mat) (y x : ℕ) : ℤ := (m.getD y []).getD x 0

/-- Build the `h × w` matrix with entries `g y x`. -/
def mk2 (h w : ℕ) (g : ℕ → ℕ → ℤ) : Mat :=
  (List.range h).map fun y => (List.range w).map fun x => g y x

def getM3 (t : Tensor3) (c : ℕ) : Mat := t.getD c []

def getM4 (t : Tensor4) (i c : ℕ) : Mat := (t.getD i []).getD c []

def entry3 (t : Tensor3) (c y x : ℕ) : ℤ := entry (getM3 t c) y x

def entry4 (t : Tensor4) (i c y x : ℕ) : ℤ := entry (getM4 t i c) y x

/-- `m` is a rectangular `h × w` array. -/
def hasShape (m : Mat) (h w : ℕ) : Prop :=
  m.length = h ∧ ∀ r ∈ m, r.length = w

/-- `t` is a rectangular `c × h × w` array. -/
def Shape3 (t : Tensor3) (c h w : ℕ) : Prop :=
  t.length = c ∧ ∀ m ∈ t, hasShape m h w

/-- `t` is a rectangular `n × c × h × w` array. -/
def Shape4 (t : Tensor4) (n c h w : ℕ) : Prop :=
  t.length = n ∧ ∀ s ∈ t, Shape3 s c h w

instance (m : Mat) (h w : ℕ) : Decidable (hasShape m h w) := by
  unfold hasShape; infer_instance

instance (t : Tensor3) (c h w : ℕ) : Decidable (Shape3 t c h w) := by
  unfold Shape3; infer_instance

instance (t : Tensor4) (n c h w : ℕ) : Decidable (Shape4 t n c h w) := by
  unfold Shape4; infer_instance

/-- Elementwise sum of two same-shaped arrays (numpy `+`). -/
def matAdd (a b : Mat) : Mat :=
  List.zipWith (fun ra rb => List.zipWith (· + ·) ra rb) a b

/-- Elementwise sum of two same-shaped rank-3 arrays. -/
def add3 (a b : Tensor3) : Tensor3 := List.zipWith matAdd a b

def zerosMat (h w : ℕ) : Mat := mk2 h w fun _ _ => 0

/-- `np.zeros(m.shape)` for a 2-d array. -/
def zerosLike2 (m : Mat) : Mat := m.map fun r => r.map fun _ => 0

def zerosLike3 (t : Tensor3) : Tensor3 := t.map zerosLike2

def zerosLike4 (t : Tensor4) : Tensor4 := t.map zerosLike3

/-- Replace element `i` of a list by `f` of it (in-place numpy update `l[i] = f(l[i])`). -/
def modAt {α : Type} : List α → ℕ → (α → α) → List α
  | [], _, _ => []
  | a :: l, 0, f => f a :: l
  | a :: l, n + 1, f => a :: modAt l n f

/-- `scipy.signal.correlate2d(a, k, mode="valid")`:
`out[y, x] = Σ_{u,v} a[y+u, x+v] * k[u, v]`. -/
def correlate2dValid (a k : Mat) : Mat :=
  mk2 (matH a - matH k + 1) (matW a - matW k + 1) fun y x =>
    Finset.sum (Finset.range (matH k)) fun u =>
      Finset.sum (Finset.range (matW k)) fun v =>
        entry a (y + u) (x + v) * entry k u v

/-- `scipy.signal.convolve2d(a, k, mode="full")`:
`out[y, x] = Σ_{p,q} a[p, q] * k[y-p, x-q]` over the in-range terms. -/
def convolve2dFull (a k : Mat) : Mat :=
  mk2 (matH a + matH k - 1) (matW a + matW k - 1) fun y x =>
    Finset.sum (Finset.range (matH a)) fun p =>
      Finset.sum (Finset.range (matW a)) fun q =>
        if p ≤ y ∧ y - p < matH k ∧ q ≤ x ∧ x - q < matW k then
          entry a p q * entry k (y - p) (x - q)
        else 0

/-- numpy slicing `arr[::s, ::s]` for `s ≥ 1`: every `s`-th row and column
starting at index 0; the resulting extent along an axis of size `n` is
`⌈n / s⌉ = (n + s - 1) / s`. -/
def subsampleStride (m : Mat) (s : ℕ) : Mat :=
  mk2 ((matH m + s - 1) / s) ((matW m + s - 1) / s) fun y x => entry m (y * s) (x * s)

/-- Dilated extent of an axis of size `n`: `stride - 1` zeros are inserted
between consecutive elements, so `n` elements span `(n - 1) * s + 1` slots. -/
def dilLen (n s : ℕ) : ℕ := if n = 0 then 0 else (n - 1) * s + 1

/-- Modelled from the spec: `dilate(array, stride)` from `dlfs.helpers` (file
not present under `src/`): inserts `stride - 1` zeros between consecutive
elements along each spatial axis of a 2D array; `stride == 1` is the
identity. -/
def dilate (m : Mat) (s : ℕ) : Mat :=
  mk2 (dilLen (matH m) s) (dilLen (matW m) s) fun y x =>
    if s ∣ y ∧ s ∣ x then entry m (y / s) (x / s) else 0

/-- Modelled from the spec: `pad_to_shape(array, target_shape)` from
`dlfs.helpers` (file not present under `src/`): returns an array of exactly
the target shape holding the original values at the origin and zeros
elsewhere; fails with a ShapeError when the target is smaller than the array
along any axis. -/
def padToShape (m : Mat) (th tw : ℕ) : Except String Mat :=
  if matH m ≤ th ∧ matW m ≤ tw then
    Except.ok (mk2 th tw fun y x => entry m y x)
  else
    Except.error "ShapeError"

/-- numpy transpose of a 2-d array. -/
def transposeM (m : Mat) : Mat := mk2 (matW m) (matH m) fun i j => entry m j i

/-- `np.dot` of two 2-d arrays, summing over the left factor's columns. -/
def matMul (a b : Mat) : Mat :=
  mk2 (matH a) (matW b) fun i j =>
    Finset.sum (Finset.range (matW a)) fun t => entry a i t * entry b t j

/-- Broadcast addition of a vector to each row (numpy `matrix + vector`). -/
def matAddVecRow (m : Mat) (v : List ℤ) : Mat :=
  mk2 (matH m) (matW m) fun i j => entry m i j + v.getD j 0

/-- `np.sum(m, axis=0)`. -/
def sumAxis0 (m : Mat) : List ℤ :=
  (List.range (matW m)).map fun j =>
    Finset.sum (Finset.range (matH m)) fun i => entry m i j

structure DenseLayer where
  weights : Mat
  biases : List ℤ
  inputs : Option Mat
  output : Option Mat
  dweights : Option Mat
  dbiases : Option (List ℤ)
  dinputs : Option Mat

/-- `DenseLayer.__init__(n_inputs, n_neurons)`: the weights
`0.1 * np.random.randn(n_inputs, n_neurons)` are modelled by an arbitrary
supplied matrix (theorems hypothesise its `n_inputs × n_neurons` shape); the
biases are the zero vector `np.zeros(n_neurons)`. -/
def DenseLayer.init (nInputs nNeurons : ℕ) (weights : Mat) : DenseLayer :=
  ⟨weights, List.replicate nNeurons 0, none, none, none, none, none⟩

/-- `DenseLayer.forward`: store the inputs, set
`output = np.dot(inputs, weights) + biases`. -/
def DenseLayer.forward (L : DenseLayer) (inputs : Mat) : DenseLayer :=
  { L with
    inputs := some inputs
    output := some (matAddVecRow (matMul inputs L.weights) L.biases) }

/-- `DenseLayer.backward`: `dweights = inputs.T @ delta`,
`dbiases = np.sum(delta, axis=0)`, `dinputs = delta @ weights.T`.  Reading
`self.inputs` presumes a prior forward call; the embedding reads the stored
inputs with `[]` as the never-used fallback, and every theorem about backward
supplies the prior forward call. -/
def DenseLayer.backward (L : DenseLayer) (delta : Mat) : DenseLayer :=
  { L with
    dweights := some (matMul (transposeM (L.inputs.getD [])) delta)
    dbiases := some (sumAxis0 delta)
    dinputs := some (matMul delta (transposeM L.weights)) }

structure ConvolutionalLayer where
  input_channels : ℕ
  output_channels : ℕ
  kernel_size : ℕ
  stride : ℕ
  output_height : ℤ
  output_width : ℤ
  kernels : Tensor4
  biases : Tensor3
  inputs : Option Tensor4
  output : Option Tensor4
  dkernels : Option Tensor4
  dbiases : Option Tensor3
  dinputs : Option Tensor4

/-- `ConvolutionalLayer.__init__(input_shape, output_channels, kernel_size,
stride)`: `output_height = int(floor((input_height - kernel_size) / stride) + 1)`
(Python real division followed by `floor`, i.e. integer floor division,
embedded with `Int.fdiv`), same for the width; no validity check of any kind
is performed.  The randomly initialized `kernels` (allocated shape
`(output_channels, input_channels, kernel_size, kernel_size)`) and `biases`
(allocated shape `output_shape`) are modelled by arbitrary supplied arrays of
those shapes. -/
def ConvolutionalLayer.init (inputShape : ℕ × ℕ × ℕ)
    (outputChannels kernelSize stride : ℕ)
    (kernels : Tensor4) (biases : Tensor3) : ConvolutionalLayer :=
  { input_channels := inputShape.1
    output_channels := outputChannels
    kernel_size := kernelSize
    stride := stride
    output_height := Int.fdiv ((inputShape.2.1 : ℤ) - (kernelSize : ℤ)) (stride : ℤ) + 1
    output_width := Int.fdiv ((inputShape.2.2 : ℤ) - (kernelSize : ℤ)) (stride : ℤ) + 1
    kernels := kernels
    biases := biases
    inputs := none
    output := none
    dkernels := none
    dbiases := none
    dinputs := none }

/-- The allocation step of `ConvolutionalLayer.__init__`: `np.random.randn`
applied to `kernels_shape` and then to `output_shape` raises `ValueError`
exactly when one of the dimensions is negative (a zero dimension yields an
empty array without error).  The `kernels_shape` dimensions are naturals, so
only the computed `output_height` and `output_width` of the biases
allocation can be negative; the drawn random arrays themselves are modelled
by the supplied `kernels` and `biases`. -/
def ConvolutionalLayer.initE (inputShape : ℕ × ℕ × ℕ)
    (outputChannels kernelSize stride : ℕ)
    (kernels : Tensor4) (biases : Tensor3) :
    Except String ConvolutionalLayer :=
  let L := ConvolutionalLayer.init inputShape outputChannels kernelSize stride
    kernels biases
  if L.output_height < 0 ∨ L.output_width < 0 then
    Except.error "ValueError: negative dimensions are not allowed"
  else Except.ok L

/-- `ConvolutionalLayer.forward`: store the inputs; start from
`np.zeros((n_samples, *output_shape)) + biases` and accumulate, for every
sample, output channel and input channel, the valid cross-correlation of the
input channel with the kernel subsampled by `stride`. -/
def ConvolutionalLayer.forward (L : ConvolutionalLayer) (inputs : Tensor4) :
    ConvolutionalLayer :=
  { L with
    inputs := some inputs
    output := some ((List.range inputs.length).map fun i =>
      (List.range L.output_channels).map fun j =>
        (List.range L.input_channels).foldl
          (fun acc k =>
            matAdd acc
              (subsampleStride
                (correlate2dValid (getM4 inputs i k) (getM4 L.kernels j k))
                L.stride))
          (matAdd (zerosMat L.output_height.toNat L.output_width.toNat)
            (getM3 L.biases j))) }

/-- The three gradient arrays `ConvolutionalLayer.backward` mutates in place. -/
structure GradSt where
  dkernels : Tensor4
  dbiases : Tensor3
  dinputs : Tensor4

/-- In-place update of cell `(i, k)` of a rank-4 array. -/
def modGrid (t : Tensor4) (i k : ℕ) (f : Mat → Mat) : Tensor4 :=
  modAt t i fun t3 => modAt t3 k f

/-- Python equality between a shape tuple and an integer: `(h, w) == n` is
always `False`.  This embeds the branch condition
`delta_dilated_shape == input_shape - kernel_shape + 1` of
`ConvolutionalLayer.backward`, whose left operand is the tuple
`delta_dilated.shape` and whose right operand is an integer, so the
"correlate directly" branch guarded by it can never run. -/
def pyTupleEqInt (p : ℕ × ℕ) (n : ℕ) : Bool := false

/-- The `stride == 1` branch of the per-(sample, out-channel, in-channel)
gradient update: `dkernels[j,k] += correlate2d(inputs[i,k], delta[i,j],
"valid")` and `dinputs[i,k] += convolve2d(delta[i,j], kernels[j,k], "full")`. -/
def convStepDirect (L : ConvolutionalLayer) (inputs delta : Tensor4)
    (i j k : ℕ) (st : GradSt) : GradSt :=
  { st with
    dkernels := modGrid st.dkernels j k fun m =>
      matAdd m (correlate2dValid (getM4 inputs i k) (getM4 delta i j))
    dinputs := modGrid st.dinputs i k fun m =>
      matAdd m (convolve2dFull (getM4 delta i j) (getM4 L.kernels j k)) }

/-- First half of the `stride > 1` branch (the kernel-gradient path): dilate
the upstream gradient, compare its shape tuple against the integer
`input_shape - kernel_shape + 1` (`input_shape = self.inputs[i, k].shape[0]`
and `kernel_shape = self.dkernels[j, k].shape[0]`, both heights only; the
comparison is always `False` in Python, see `pyTupleEqInt`), pad the dilated
gradient to the square target shape (raising with the state so far on a
`pad_to_shape` failure) and accumulate the valid correlation with the stored
input into `dkernels[j, k]`.  The ℕ subtraction in the target agrees with the
Python integers whenever `kernel_size ≤ input height`, which every theorem
about this path hypothesises. -/
def convKernelPart (L : ConvolutionalLayer) (inputs delta : Tensor4)
    (i j k : ℕ) (st : GradSt) : Except GradSt GradSt :=
  let ddil := dilate (getM4 delta i j) L.stride
  let tgt := matH (getM4 inputs i k) - matH (getM4 st.dkernels j k) + 1
  if pyTupleEqInt (matH ddil, matW ddil) tgt then
    Except.ok { st with
      dkernels := modGrid st.dkernels j k fun m =>
        matAdd m (correlate2dValid (getM4 inputs i k) ddil) }
  else
    match padToShape ddil tgt tgt with
    | Except.error _ => Except.error st
    | Except.ok dpadded =>
        Except.ok { st with
          dkernels := modGrid st.dkernels j k fun m =>
            matAdd m (correlate2dValid (getM4 inputs i k) dpadded) }

/-- Second half of the `stride > 1` branch (the input-gradient path): fully
convolve the dilated gradient with the kernel; when the result's shape equals
`dinputs[i, k]`'s shape accumulate directly, otherwise pad it to that shape
first (raising with the state so far on a `pad_to_shape` failure). -/
def convInputPart (L : ConvolutionalLayer) (delta : Tensor4)
    (i j k : ℕ) (st1 : GradSt) : Except GradSt GradSt :=
  let ddil := dilate (getM4 delta i j) L.stride
  let dinput := convolve2dFull ddil (getM4 L.kernels j k)
  if (matH dinput, matW dinput)
      = (matH (getM4 st1.dinputs i k), matW (getM4 st1.dinputs i k)) then
    Except.ok { st1 with
      dinputs := modGrid st1.dinputs i k fun m => matAdd m dinput }
  else
    match padToShape dinput (matH (getM4 st1.dinputs i k))
        (matW (getM4 st1.dinputs i k)) with
    | Except.error _ => Except.error st1
    | Except.ok dpad =>
        Except.ok { st1 with
          dinputs := modGrid st1.dinputs i k fun m => matAdd m dpad }

/-- The whole `stride > 1` branch: the kernel-gradient path followed by the
input-gradient path; an exception in either aborts with the mutations made up
to that point. -/
def convStepStrided (L : ConvolutionalLayer) (inputs delta : Tensor4)
    (i j k : ℕ) (st : GradSt) : Except GradSt GradSt :=
  match convKernelPart L inputs delta i j k st with
  | Except.error e => Except.error e
  | Except.ok st1 => convInputPart L delta i j k st1

/-- Dispatch between the two branches on `self.stride == 1`, as the source
does inside the innermost loop. -/
def convStepJK (L : ConvolutionalLayer) (inputs delta : Tensor4)
    (i j k : ℕ) (st : GradSt) : Except GradSt GradSt :=
  if L.stride = 1 then Except.ok (convStepDirect L inputs delta i j k st)
  else convStepStrided L inputs delta i j k st

/-- Left fold threading the mutable gradient state through steps that can
raise; a raise aborts the remaining iterations and keeps the state at the
point of failure, as a Python exception does. -/
def foldE (l : List ℕ) (step : ℕ → GradSt → Except GradSt GradSt)
    (st : GradSt) : Except GradSt GradSt :=
  l.foldl (fun acc i => acc.bind (step i)) (Except.ok st)

/-- One iteration of the outer sample loop: `dbiases += delta[i]`, then the
two nested channel loops. -/
def convSampleWith (step : ℕ → ℕ → ℕ → GradSt → Except GradSt GradSt)
    (oc ic : ℕ) (delta : Tensor4) (i : ℕ) (st : GradSt) :
    Except GradSt GradSt :=
  foldE (List.range oc)
    (fun j st1 => foldE (List.range ic) (fun k st2 => step i j k st2) st1)
    { st with dbiases := add3 st.dbiases (delta.getD i []) }

/-- Common shell of the backward pass: overwrite `dkernels` and `dbiases` with
zeros, read `self.inputs` (raising, with those two already overwritten, when
no forward call stored them), overwrite `dinputs` with zeros, then run the
sample loop; both normal return and a raised exception leave the gradient
attributes at their current values. -/
def ConvolutionalLayer.backwardWith
    (stepOf : Tensor4 → ℕ → ℕ → ℕ → GradSt → Except GradSt GradSt)
    (L : ConvolutionalLayer) (delta : Tensor4) :
    Except ConvolutionalLayer ConvolutionalLayer :=
  match L.inputs with
  | none =>
      Except.error { L with
        dkernels := some (zerosLike4 L.kernels)
        dbiases := some (zerosLike3 L.biases) }
  | some inputs =>
      match foldE (List.range inputs.length)
              (fun i => convSampleWith (stepOf inputs)
                L.output_channels L.input_channels delta i)
              ⟨zerosLike4 L.kernels, zerosLike3 L.biases, zerosLike4 inputs⟩ with
      | Except.error st =>
          Except.error { L with
            dkernels := some st.dkernels
            dbiases := some st.dbiases
            dinputs := some st.dinputs }
      | Except.ok st =>
          Except.ok { L with
            dkernels := some st.dkernels
            dbiases := some st.dbiases
            dinputs := some st.dinputs }

/-- `ConvolutionalLayer.backward` from the source: the per-cell update picks
the direct branch at `stride == 1` and the dilate/pad branch otherwise. -/
def ConvolutionalLayer.backward (L : ConvolutionalLayer) (delta : Tensor4) :
    Except ConvolutionalLayer ConvolutionalLayer :=
  L.backwardWith (fun inputs => convStepJK L inputs delta) delta

/-- The backward pass running the dilate/pad (`stride > 1`) branch at every
stride: the "general path" of the refinement claim, to be compared with
`ConvolutionalLayer.backward` at `stride = 1`. -/
def ConvolutionalLayer.backwardAllStrided (L : ConvolutionalLayer)
    (delta : Tensor4) : Except ConvolutionalLayer ConvolutionalLayer :=
  L.backwardWith (fun inputs => convStepStrided L inputs delta) delta

/-- The layer object after a backward call, whether it returned normally or
raised: a raising call still leaves its mutations on `self`. -/
def stateOf : Except ConvolutionalLayer ConvolutionalLayer → ConvolutionalLayer
  | Except.ok M => M
  | Except.error M => M

def isErr {α β : Type} : Except α β → Bool
  | Except.error _ => true
  | Except.ok _ => false

structure ReshapeLayer where
  input_shape : ℕ × ℕ × ℕ
  output_shape : ℕ
  output : Option Mat
  dinputs : Option Tensor4

def ReshapeLayer.init (inputShape : ℕ × ℕ × ℕ) (outputShape : ℕ) :
    ReshapeLayer :=
  ⟨inputShape, outputShape, none, none⟩

/-- Row-major flattening of one `(depth, height, width)` sample. -/
def flattenSample (t : Tensor3) : List ℤ := (t.map List.flatten).flatten

/-- `ReshapeLayer.forward`:
`np.reshape(inputs, (batch_size, output_shape))`, embedded as the per-sample
row-major flatten; the two coincide exactly when each sample holds
`output_shape` elements, which the theorems hypothesise (`np.reshape` fails
otherwise). -/
def ReshapeLayer.forward (L : ReshapeLayer) (inputs : Tensor4) : ReshapeLayer :=
  { L with output := some (inputs.map flattenSample) }

/-- Inverse row-major reshape of one flattened sample back to
`(d, h, w)`. -/
def unflattenSample (d h w : ℕ) (v : List ℤ) : Tensor3 :=
  (List.range d).map fun a => mk2 h w fun y x => v.getD (a * (h * w) + y * w + x) 0

/-- `ReshapeLayer.backward`:
`np.reshape(delta, (batch_size, *input_shape))`; it uses only `delta` and the
`input_shape` fixed at construction. -/
def ReshapeLayer.backward (L : ReshapeLayer) (delta : Mat) : ReshapeLayer :=
  { L with
    dinputs := some (delta.map
      (unflattenSample L.input_shape.1 L.input_shape.2.1 L.input_shape.2.2)) }

/-- Shape invariant of the three gradient arrays threaded through the
backward-pass loops of a convolutional layer configured for `n` samples of
`ic` channels of `ih × iw` pixels, `oc` output channels, square `ks × ks`
kernels and a `goh × gow` output grid. -/
def ConvInv (oc ic ks goh gow n ih iw : ℕ) (st : GradSt) : Prop :=
  Shape4 st.dkernels oc ic ks ks ∧ Shape3 st.dbiases oc goh gow ∧
    Shape4 st.dinputs n ic ih iw

/-! ### Basic list access lemmas -/

theorem getD_nil {α : Type} (n : ℕ) (d : α) : ([] : List α).getD n d = d := by
  cases n <;> rfl

theorem getD_cons_zero {α : Type} (a : α) (l : List α) (d : α) :
    (a :: l).getD 0 d = a := rfl

theorem getD_cons_succ {α : Type} (a : α) (l : List α) (n : ℕ) (d : α) :
    (a :: l).getD (n + 1) d = l.getD n d := rfl

theorem getD_mem {α : Type} {l : List α} {i : ℕ} (h : i < l.length) (d : α) :
    l.getD i d ∈ l := by
  induction l generalizing i with
  | nil => simp at h
  | cons a t ih =>
    cases i with
    | zero => simp [getD_cons_zero]
    | succ n =>
      rw [getD_cons_succ]
      exact List.mem_cons_of_mem _ (ih (by simpa using h) )

theorem getD_rangeMap {α : Type} (f : ℕ → α) (n i : ℕ) (d : α) :
    ((List.range n).map f).getD i d = if i < n then f i else d := by
  induction n generalizing f i with
  | zero => simp [getD_nil]
  | succ m ih =>
    rw [List.range_succ_eq_map, List.map_cons, List.map_map]
    cases i with
    | zero => simp [getD_cons_zero]
    | succ k =>
      rw [getD_cons_succ]
      rw [ih (f ∘ Nat.succ) k]
      simp [Function.comp, Nat.succ_lt_succ_iff]

theorem getD_zipWith {α β γ : Type} (f : α → β → γ) (a : List α) (b : List β)
    (i : ℕ) (da : α) (db : β) (dc : γ) (ha : i < a.length) (hb : i < b.length) :
    (List.zipWith f a b).getD i dc = f (a.getD i da) (b.getD i db) := by
  induction a generalizing b i with
  | nil => simp at ha
  | cons x xs ih =>
    cases b with
    | nil => simp at hb
    | cons y ys =>
      cases i with
      | zero => rfl
      | succ k => exact ih ys k (by simpa using ha) (by simpa using hb)

theorem mem_zipWith {α β γ : Type} {f : α → β → γ} {a : List α} {b : List β} {c : γ}
    (h : c ∈ List.zipWith f a b) : ∃ x ∈ a, ∃ y ∈ b, c = f x y := by
  induction a generalizing b with
  | nil => simp at h
  | cons x xs ih =>
    cases b with
    | nil => simp at h
    | cons y ys =>
      rw [List.zipWith_cons_cons] at h
      rcases List.mem_cons.mp h with h1 | h2
      · exact ⟨x, by simp, y, by simp, h1⟩
      · obtain ⟨u, hu, v, hv, rfl⟩ := ih h2
        exact ⟨u, List.mem_cons_of_mem _ hu, v, List.mem_cons_of_mem _ hv, rfl⟩

theorem modAt_length {α : Type} (l : List α) (i : ℕ) (f : α → α) :
    (modAt l i f).length = l.length := by
  induction l generalizing i with
  | nil => rfl
  | cons a t ih =>
    cases i with
    | zero => rfl
    | succ n => simpa [modAt] using ih n

theorem mem_modAt {α : Type} {l : List α} {i : ℕ} {f : α → α} {r : α}
    (h : r ∈ modAt l i f) : r ∈ l ∨ ∃ a ∈ l, r = f a := by
  induction l generalizing i with
  | nil => simpa [modAt] using h
  | cons a t ih =>
    cases i with
    | zero =>
      rw [show modAt (a :: t) 0 f = f a :: t from rfl] at h
      rcases List.mem_cons.mp h with h1 | h2
      · exact Or.inr ⟨a, by simp, h1⟩
      · exact Or.inl (List.mem_cons_of_mem _ h2)
    | succ n =>
      rw [show modAt (a :: t) (n + 1) f = a :: modAt t n f from rfl] at h
      rcases List.mem_cons.mp h with h1 | h2
      · exact Or.inl (by simp [h1])
      · rcases ih h2 with h3 | ⟨x, hx, rfl⟩
        · exact Or.inl (List.mem_cons_of_mem _ h3)
        · exact Or.inr ⟨x, List.mem_cons_of_mem _ hx, rfl⟩

theorem modAt_getD_same {α : Type} {l : List α} {i : ℕ} (f : α → α) (d : α)
    (h : i < l.length) : (modAt l i f).getD i d = f (l.getD i d) := by
  induction l generalizing i with
  | nil => simp at h
  | cons a t ih =>
    cases i with
    | zero => rfl
    | succ n => exact ih (by simpa using h)

theorem modAt_getD_other {α : Type} {l : List α} {i j : ℕ} (f : α → α) (d : α)
    (h : j ≠ i) : (modAt l i f).getD j d = l.getD j d := by
  induction l generalizing i j with
  | nil => rfl
  | cons a t ih =>
    cases i with
    | zero =>
      cases j with
      | zero => exact absurd rfl h
      | succ m => rfl
    | succ n =>
      cases j with
      | zero => rfl
      | succ m => exact ih (fun hh => h (by rw [hh]))

theorem rangeMap_getD_self {α : Type} (l : List α) (d : α) :
    (List.range l.length).map (fun i => l.getD i d) = l := by
  induction l with
  | nil => rfl
  | cons a t ih =>
    rw [List.length_cons, List.range_succ_eq_map, List.map_cons, List.map_map]
    have h2 : ((fun i => (a :: t).getD i d) ∘ Nat.succ) = fun i => t.getD i d := by
      funext i; rfl
    rw [getD_cons_zero, h2, ih]

theorem mapRange_congr {α : Type} (n : ℕ) (f g : ℕ → α) (h : ∀ i < n, f i = g i) :
    (List.range n).map f = (List.range n).map g := by
  induction n with
  | zero => rfl
  | succ m ih =>
    rw [List.range_succ, List.map_append, List.map_append]
    rw [ih (fun i hi => h i (Nat.lt_succ_of_lt hi))]
    simp [h m (Nat.lt_succ_self m)]

/-! ### Shape and entry lemmas for the array primitives -/

theorem matH_mk2 (h w : ℕ) (g : ℕ → ℕ → ℤ) : matH (mk2 h w g) = h := by
  simp [matH, mk2]

theorem matW_mk2 {h : ℕ} (w : ℕ) (g : ℕ → ℕ → ℤ) (hp : 0 < h) :
    matW (mk2 h w g) = w := by
  unfold matW mk2
  cases h with
  | zero => omega
  | succ m =>
    rw [List.range_succ_eq_map, List.map_cons]
    simp

theorem hasShape_mk2 (h w : ℕ) (g : ℕ → ℕ → ℤ) : hasShape (mk2 h w g) h w := by
  constructor
  · simp [mk2]
  · intro r hr
    simp only [mk2, List.mem_map, List.mem_range] at hr
    obtain ⟨y, _, rfl⟩ := hr
    simp

theorem entry_mk2 (h w : ℕ) (g : ℕ → ℕ → ℤ) (y x : ℕ) :
    entry (mk2 h w g) y x = if y < h ∧ x < w then g y x else 0 := by
  unfold entry mk2
  rw [getD_rangeMap]
  by_cases hy : y < h
  · simp only [hy, if_true]
    rw [getD_rangeMap]
    by_cases hx : x < w <;> simp [hx, hy]
  · simp [hy, getD_nil]

theorem entry_mk2_in (h w : ℕ) (g : ℕ → ℕ → ℤ) {y x : ℕ}
    (hy : y < h) (hx : x < w) : entry (mk2 h w g) y x = g y x := by
  rw [entry_mk2]
  simp [hy, hx]

theorem hasShape.hH {m : Mat} {h w : ℕ} (hs : hasShape m h w) : matH m = h := hs.1

theorem hasShape.hW {m : Mat} {h w : ℕ} (hs : hasShape m h w) (hp : 0 < h) :
    matW m = w := by
  unfold matW
  cases m with
  | nil =>
    have := hs.1
    simp at this
    omega
  | cons r t => exact hs.2 r (by simp)

theorem mk2_entry_self {m : Mat} {w : ℕ} (hs : ∀ r ∈ m, r.length = w) :
    mk2 m.length w (fun y x => entry m y x) = m := by
  induction m with
  | nil => rfl
  | cons r t ih =>
    unfold mk2
    rw [List.length_cons, List.range_succ_eq_map, List.map_cons, List.map_map]
    have hhead : (List.range w).map (fun x => entry (r :: t) 0 x) = r := by
      have hr : r.length = w := hs r (by simp)
      have he : (fun x => entry (r :: t) 0 x) = fun x => r.getD x 0 := by
        funext x; rfl
      rw [he, ← hr, rangeMap_getD_self]
    have htail : ((fun y => (List.range w).map fun x => entry (r :: t) y x) ∘ Nat.succ)
        = fun y => (List.range w).map fun x => entry t y x := by
      funext y; rfl
    rw [hhead, htail]
    have := ih (fun r' hr' => hs r' (List.mem_cons_of_mem _ hr'))
    unfold mk2 at this
    rw [this]

theorem mk2_entry_self_shape {m : Mat} {h w : ℕ} (hs : hasShape m h w) :
    mk2 h w (fun y x => entry m y x) = m := by
  rw [← hs.1]
  exact mk2_entry_self hs.2

theorem matAdd_hasShape {a b : Mat} {h w : ℕ}
    (ha : hasShape a h w) (hb : hasShape b h w) : hasShape (matAdd a b) h w := by
  constructor
  · rw [matAdd, List.length_zipWith, ha.1, hb.1, Nat.min_self]
  · intro r hr
    obtain ⟨x, hx, y, hy, rfl⟩ := mem_zipWith hr
    rw [List.length_zipWith, ha.2 x hx, hb.2 y hy, Nat.min_self]

theorem entry_matAdd {a b : Mat} {h w : ℕ}
    (ha : hasShape a h w) (hb : hasShape b h w) {y x : ℕ}
    (hy : y < h) (hx : x < w) :
    entry (matAdd a b) y x = entry a y x + entry b y x := by
  unfold entry matAdd
  rw [getD_zipWith _ a b y [] [] [] (by rw [ha.1]; exact hy) (by rw [hb.1]; exact hy)]
  exact getD_zipWith _ _ _ x 0 0 0
    (by rw [ha.2 _ (getD_mem (by rw [ha.1]; exact hy) [])]; exact hx)
    (by rw [hb.2 _ (getD_mem (by rw [hb.1]; exact hy) [])]; exact hx)

theorem Shape3_add3 {a b : Tensor3} {c h w : ℕ}
    (ha : Shape3 a c h w) (hb : Shape3 b c h w) : Shape3 (add3 a b) c h w := by
  constructor
  · rw [add3, List.length_zipWith, ha.1, hb.1, Nat.min_self]
  · intro m hm
    obtain ⟨x, hx, y, hy, rfl⟩ := mem_zipWith hm
    exact matAdd_hasShape (ha.2 x hx) (hb.2 y hy)

theorem zerosLike2_hasShape {m : Mat} {h w : ℕ} (hs : hasShape m h w) :
    hasShape (zerosLike2 m) h w := by
  constructor
  · rw [zerosLike2, List.length_map, hs.1]
  · intro r hr
    simp only [zerosLike2, List.mem_map] at hr
    obtain ⟨r0, hr0, rfl⟩ := hr
    rw [List.length_map, hs.2 r0 hr0]

theorem zerosLike3_Shape {t : Tensor3} {c h w : ℕ} (hs : Shape3 t c h w) :
    Shape3 (zerosLike3 t) c h w := by
  constructor
  · rw [zerosLike3, List.length_map, hs.1]
  · intro m hm
    simp only [zerosLike3, List.mem_map] at hm
    obtain ⟨m0, hm0, rfl⟩ := hm
    exact zerosLike2_hasShape (hs.2 m0 hm0)

theorem zerosLike4_Shape {t : Tensor4} {n c h w : ℕ} (hs : Shape4 t n c h w) :
    Shape4 (zerosLike4 t) n c h w := by
  constructor
  · rw [zerosLike4, List.length_map, hs.1]
  · intro s hsm
    simp only [zerosLike4, List.mem_map] at hsm
    obtain ⟨s0, hs0, rfl⟩ := hsm
    exact zerosLike3_Shape (hs.2 s0 hs0)

theorem Shape3.getM3 {t : Tensor3} {c h w : ℕ} (hs : Shape3 t c h w) {j : ℕ}
    (hj : j < c) : hasShape (getM3 t j) h w :=
  hs.2 _ (getD_mem (by rw [hs.1]; exact hj) _)

theorem Shape4.sample {t : Tensor4} {n c h w : ℕ} (hs : Shape4 t n c h w) {i : ℕ}
    (hi : i < n) : Shape3 (t.getD i []) c h w :=
  hs.2 _ (getD_mem (by rw [hs.1]; exact hi) _)

theorem Shape4.getM4 {t : Tensor4} {n c h w : ℕ} (hs : Shape4 t n c h w) {i j : ℕ}
    (hi : i < n) (hj : j < c) : hasShape (getM4 t i j) h w :=
  (hs.sample hi).getM3 hj

theorem Shape3_modAt {t : Tensor3} {c h w i : ℕ} {f : Mat → Mat} (hs : Shape3 t c h w)
    (hf : ∀ m, hasShape m h w → hasShape (f m) h w) : Shape3 (modAt t i f) c h w := by
  constructor
  · rw [modAt_length, hs.1]
  · intro m hm
    rcases mem_modAt hm with h1 | ⟨a, ha, rfl⟩
    · exact hs.2 m h1
    · exact hf a (hs.2 a ha)

theorem Shape4_modGrid {t : Tensor4} {n c h w i k : ℕ} {f : Mat → Mat}
    (hs : Shape4 t n c h w) (hf : ∀ m, hasShape m h w → hasShape (f m) h w) :
    Shape4 (modGrid t i k f) n c h w := by
  unfold modGrid
  constructor
  · rw [modAt_length, hs.1]
  · intro s hsm
    rcases mem_modAt hsm with h1 | ⟨a, ha, rfl⟩
    · exact hs.2 s h1
    · exact Shape3_modAt (hs.2 a ha) hf

theorem mk2_congr {h w : ℕ} {f g : ℕ → ℕ → ℤ}
    (he : ∀ y < h, ∀ x < w, f y x = g y x) : mk2 h w f = mk2 h w g := by
  unfold mk2
  refine mapRange_congr _ _ _ fun y hy => ?_
  exact mapRange_congr _ _ _ fun x hx => he y hy x hx

/-! ### Lemmas about the array primitives consumed by the layers -/

theorem fdiv_coe (a b : ℕ) : Int.fdiv (a : ℤ) (b : ℤ) = ((a / b : ℕ) : ℤ) :=
  (Int.ofNat_fdiv a b).symm

theorem convInit_output_height (ic ih iw oc ks s : ℕ) (K : Tensor4) (B : Tensor3)
    (hk : ks ≤ ih) :
    (ConvolutionalLayer.init (ic, ih, iw) oc ks s K B).output_height
      = (((ih - ks) / s + 1 : ℕ) : ℤ) := by
  show Int.fdiv ((ih : ℤ) - (ks : ℤ)) (s : ℤ) + 1 = _
  rw [← Nat.cast_sub hk, fdiv_coe]
  push_cast
  ring

theorem convInit_output_width (ic ih iw oc ks s : ℕ) (K : Tensor4) (B : Tensor3)
    (hk : ks ≤ iw) :
    (ConvolutionalLayer.init (ic, ih, iw) oc ks s K B).output_width
      = (((iw - ks) / s + 1 : ℕ) : ℤ) := by
  show Int.fdiv ((iw : ℤ) - (ks : ℤ)) (s : ℤ) + 1 = _
  rw [← Nat.cast_sub hk, fdiv_coe]
  push_cast
  ring

theorem correlate_shape {a k : Mat} {ah aw kh kw : ℕ}
    (ha : hasShape a ah aw) (hk : hasShape k kh kw) (hpa : 0 < ah) (hpk : 0 < kh) :
    hasShape (correlate2dValid a k) (ah - kh + 1) (aw - kw + 1) := by
  unfold correlate2dValid
  rw [ha.hH, hk.hH, ha.hW hpa, hk.hW hpk]
  exact hasShape_mk2 _ _ _

theorem convolve_shape {a k : Mat} {ah aw kh kw : ℕ}
    (ha : hasShape a ah aw) (hk : hasShape k kh kw) (hpa : 0 < ah) (hpk : 0 < kh) :
    hasShape (convolve2dFull a k) (ah + kh - 1) (aw + kw - 1) := by
  unfold convolve2dFull
  rw [ha.hH, hk.hH, ha.hW hpa, hk.hW hpk]
  exact hasShape_mk2 _ _ _

theorem subsample_shape {m : Mat} {mh mw : ℕ} (hm : hasShape m mh mw)
    (hp : 0 < mh) (s : ℕ) :
    hasShape (subsampleStride m s) ((mh + s - 1) / s) ((mw + s - 1) / s) := by
  unfold subsampleStride
  rw [hm.hH, hm.hW hp]
  exact hasShape_mk2 _ _ _

theorem dilate_shape {m : Mat} {mh mw : ℕ} (hm : hasShape m mh mw)
    (hp : 0 < mh) (s : ℕ) :
    hasShape (dilate m s) (dilLen mh s) (dilLen mw s) := by
  unfold dilate
  rw [hm.hH, hm.hW hp]
  exact hasShape_mk2 _ _ _

theorem padToShape_ok {m : Mat} {h w th tw : ℕ} (hs : hasShape m h w)
    (hp : 0 < h) (h1 : h ≤ th) (h2 : w ≤ tw) :
    padToShape m th tw = Except.ok (mk2 th tw fun y x => entry m y x) := by
  unfold padToShape
  rw [hs.hH, hs.hW hp]
  simp [h1, h2]

theorem padToShape_err {m : Mat} {h w th tw : ℕ} (hs : hasShape m h w)
    (hp : 0 < h) (hc : th < h ∨ tw < w) :
    padToShape m th tw = Except.error "ShapeError" := by
  unfold padToShape
  rw [hs.hH, hs.hW hp]
  rcases hc with hc | hc <;> simp [Nat.not_le_of_lt hc] <;> omega

theorem padToShape_self {m : Mat} {h w : ℕ} (hs : hasShape m h w) (hp : 0 < h) :
    padToShape m h w = Except.ok m := by
  rw [padToShape_ok hs hp (le_refl h) (le_refl w), mk2_entry_self_shape hs]

theorem dilLen_one (n : ℕ) : dilLen n 1 = n := by
  unfold dilLen; split <;> omega

theorem dilate_one {m : Mat} {h w : ℕ} (hs : hasShape m h w) : dilate m 1 = m := by
  cases m with
  | nil => rfl
  | cons r t =>
    have hp : 0 < h := by rw [← hs.1]; simp
    unfold dilate
    rw [hs.hH, hs.hW hp, dilLen_one, dilLen_one]
    have he : ∀ y < h, ∀ x < w,
        (if (1 : ℕ) ∣ y ∧ (1 : ℕ) ∣ x then entry (r :: t) (y / 1) (x / 1) else 0)
          = entry (r :: t) y x := by
      intro y _ x _
      simp
    rw [mk2_congr he, mk2_entry_self_shape hs]

/-! ### Accumulation-loop lemmas -/

theorem foldl_matAdd (B : Mat) (F : ℕ → Mat) (m oh ow : ℕ)
    (hB : hasShape B oh ow) (hF : ∀ k < m, hasShape (F k) oh ow) :
    hasShape ((List.range m).foldl (fun acc k => matAdd acc (F k)) B) oh ow ∧
    ∀ y < oh, ∀ x < ow,
      entry ((List.range m).foldl (fun acc k => matAdd acc (F k)) B) y x
        = entry B y x + Finset.sum (Finset.range m) (fun k => entry (F k) y x) := by
  induction m with
  | zero =>
    refine ⟨hB, fun y hy x hx => ?_⟩
    simp
  | succ p ih =>
    obtain ⟨ihs, ihe⟩ := ih (fun k hk => hF k (Nat.lt_succ_of_lt hk))
    rw [List.range_succ, List.foldl_append]
    have hFp := hF p (Nat.lt_succ_self p)
    constructor
    · exact matAdd_hasShape ihs hFp
    · intro y hy x hx
      show entry (matAdd _ (F p)) y x = _
      rw [entry_matAdd ihs hFp hy hx, ihe y hy x hx, Finset.sum_range_succ]
      ring

theorem foldE_frozen (l : List ℕ) (step : ℕ → GradSt → Except GradSt GradSt)
    (e : GradSt) :
    l.foldl (fun acc i => acc.bind (step i)) (Except.error e) = Except.error e := by
  induction l with
  | nil => rfl
  | cons a t ih =>
    rw [List.foldl_cons]
    exact ih

theorem foldE_ok_of (P : GradSt → Prop) :
    ∀ (l : List ℕ) (step : ℕ → GradSt → Except GradSt GradSt) (st0 : GradSt),
      P st0 →
      (∀ i ∈ l, ∀ st, P st → ∃ st', step i st = Except.ok st' ∧ P st') →
      ∃ st', foldE l step st0 = Except.ok st' ∧ P st'
  | [], _, st0, h0, _ => ⟨st0, rfl, h0⟩
  | a :: t, step, st0, h0, hs => by
      obtain ⟨st1, hstep, hP1⟩ := hs a (by simp) st0 h0
      have heq : foldE (a :: t) step st0 = foldE t step st1 := by
        unfold foldE
        rw [List.foldl_cons]
        have hb : (Except.ok st0).bind (step a) = Except.ok st1 := hstep
        rw [hb]
      rw [heq]
      exact foldE_ok_of P t step st1 hP1 (fun i hi => hs i (List.mem_cons_of_mem _ hi))

theorem foldE_congr (P : GradSt → Prop) :
    ∀ (l : List ℕ) (stepA stepB : ℕ → GradSt → Except GradSt GradSt) (st0 : GradSt),
      P st0 →
      (∀ i ∈ l, ∀ st, P st → stepA i st = stepB i st) →
      (∀ i ∈ l, ∀ st st', P st → stepB i st = Except.ok st' → P st') →
      foldE l stepA st0 = foldE l stepB st0
  | [], _, _, _, _, _, _ => rfl
  | a :: t, stepA, stepB, st0, h0, hAB, hpres => by
      have hA : stepA a st0 = stepB a st0 := hAB a (by simp) st0 h0
      unfold foldE
      rw [List.foldl_cons, List.foldl_cons]
      cases hB : stepB a st0 with
      | error e =>
          have hbA : (Except.ok st0).bind (stepA a) = Except.error e := hA.trans hB
          have hbB : (Except.ok st0).bind (stepB a) = Except.error e := hB
          rw [hbA, hbB, foldE_frozen, foldE_frozen]
      | ok st1 =>
          have hbA : (Except.ok st0).bind (stepA a) = Except.ok st1 := hA.trans hB
          have hbB : (Except.ok st0).bind (stepB a) = Except.ok st1 := hB
          rw [hbA, hbB]
          exact foldE_congr P t stepA stepB st1 (hpres a (by simp) st0 st1 h0 hB)
            (fun i hi => hAB i (List.mem_cons_of_mem _ hi))
            (fun i hi => hpres i (List.mem_cons_of_mem _ hi))

/-! ### Invariant preservation through the convolutional backward loops -/

theorem convKernelPart_ok (L : ConvolutionalLayer) (x δ : Tensor4)
    {ic ih iw oc ks n goh gow : ℕ} (i j k : ℕ) (st : GradSt)
    (hx : Shape4 x n ic ih iw) (hδ : Shape4 δ n oc goh gow)
    (hgoh : goh = (ih - ks) / L.stride + 1)
    (hgow : gow = (iw - ks) / L.stride + 1)
    (hks : 1 ≤ ks) (hkih : ks ≤ ih) (hsq : ih = iw)
    (hi : i < n) (hj : j < oc) (hk : k < ic)
    (hst : ConvInv oc ic ks goh gow n ih iw st) :
    convKernelPart L x δ i j k st
      = Except.ok { st with
                    dkernels := modGrid st.dkernels j k
                      (fun m => matAdd m (correlate2dValid (getM4 x i k)
                        (mk2 (ih - ks + 1) (ih - ks + 1)
                          (fun y x0 =>
                            entry (dilate (getM4 δ i j) L.stride) y x0)))) }
      ∧ ConvInv oc ic ks goh gow n ih iw
          { st with
            dkernels := modGrid st.dkernels j k
              (fun m => matAdd m (correlate2dValid (getM4 x i k)
                (mk2 (ih - ks + 1) (ih - ks + 1)
                  (fun y x0 =>
                    entry (dilate (getM4 δ i j) L.stride) y x0)))) } := by
  have hδij : hasShape (getM4 δ i j) goh gow := hδ.getM4 hi hj
  have hxik : hasShape (getM4 x i k) ih iw := hx.getM4 hi hk
  have hdkjk : hasShape (getM4 st.dkernels j k) ks ks := hst.1.getM4 hj hk
  have hpgoh : 0 < goh := by rw [hgoh]; exact Nat.succ_pos _
  have hpgow : 0 < gow := by rw [hgow]; exact Nat.succ_pos _
  have hpih : 0 < ih := by omega
  have hdd := dilate_shape hδij hpgoh L.stride
  have hdlh : dilLen goh L.stride = (goh - 1) * L.stride + 1 := by
    unfold dilLen; rw [if_neg (by omega)]
  have hdlw : dilLen gow L.stride = (gow - 1) * L.stride + 1 := by
    unfold dilLen; rw [if_neg (by omega)]
  have hdmh := Nat.div_mul_le_self (ih - ks) L.stride
  have hdmw := Nat.div_mul_le_self (iw - ks) L.stride
  have hbh : dilLen goh L.stride ≤ ih - ks + 1 := by
    rw [hdlh]
    have h1 : goh - 1 = (ih - ks) / L.stride := by omega
    rw [h1]
    omega
  have hbw : dilLen gow L.stride ≤ iw - ks + 1 := by
    rw [hdlw]
    have h1 : gow - 1 = (iw - ks) / L.stride := by omega
    rw [h1]
    omega
  have hpos : 0 < dilLen goh L.stride := by rw [hdlh]; omega
  have htgt : matH (getM4 x i k) - matH (getM4 st.dkernels j k) + 1
      = ih - ks + 1 := by
    rw [hxik.hH, hdkjk.hH]
  have hpad : padToShape (dilate (getM4 δ i j) L.stride) (ih - ks + 1) (ih - ks + 1)
      = Except.ok (mk2 (ih - ks + 1) (ih - ks + 1) fun y x0 =>
          entry (dilate (getM4 δ i j) L.stride) y x0) :=
    padToShape_ok hdd hpos hbh (by omega)
  have hck : hasShape (correlate2dValid (getM4 x i k)
      (mk2 (ih - ks + 1) (ih - ks + 1) fun y x0 =>
        entry (dilate (getM4 δ i j) L.stride) y x0)) ks ks := by
    have h1 := correlate_shape hxik
      (hasShape_mk2 (ih - ks + 1) (ih - ks + 1)
        (fun y x0 => entry (dilate (getM4 δ i j) L.stride) y x0))
      hpih (by omega)
    have e1 : ih - (ih - ks + 1) + 1 = ks := by omega
    have e2 : iw - (ih - ks + 1) + 1 = ks := by omega
    rwa [e1, e2] at h1
  constructor
  · simp only [convKernelPart, pyTupleEqInt, Bool.false_eq_true, if_false]
    rw [htgt, hpad]
  · exact ⟨Shape4_modGrid hst.1 (fun m hm => matAdd_hasShape hm hck),
      hst.2.1, hst.2.2⟩

theorem convInputPart_ok (L : ConvolutionalLayer) (δ : Tensor4)
    {ic ih iw oc ks n goh gow : ℕ} (i j k : ℕ) (st1 : GradSt) (DIN : Mat)
    (hDIN : DIN = convolve2dFull (dilate (getM4 δ i j) L.stride)
      (getM4 L.kernels j k))
    (hK : Shape4 L.kernels oc ic ks ks) (hδ : Shape4 δ n oc goh gow)
    (hgoh : goh = (ih - ks) / L.stride + 1)
    (hgow : gow = (iw - ks) / L.stride + 1)
    (hks : 1 ≤ ks) (hkih : ks ≤ ih) (hkiw : ks ≤ iw)
    (hi : i < n) (hj : j < oc) (hk : k < ic)
    (hst : ConvInv oc ic ks goh gow n ih iw st1) :
    ∃ st2, convInputPart L δ i j k st1 = Except.ok st2 ∧
      ConvInv oc ic ks goh gow n ih iw st2 ∧
      st2.dkernels = st1.dkernels ∧ st2.dbiases = st1.dbiases := by
  have hδij : hasShape (getM4 δ i j) goh gow := hδ.getM4 hi hj
  have hKjk : hasShape (getM4 L.kernels j k) ks ks := hK.getM4 hj hk
  have hdiIK : hasShape (getM4 st1.dinputs i k) ih iw := hst.2.2.getM4 hi hk
  have hpgoh : 0 < goh := by rw [hgoh]; exact Nat.succ_pos _
  have hpgow : 0 < gow := by rw [hgow]; exact Nat.succ_pos _
  have hpih : 0 < ih := by omega
  have hdd := dilate_shape hδij hpgoh L.stride
  have hdlh : dilLen goh L.stride = (goh - 1) * L.stride + 1 := by
    unfold dilLen; rw [if_neg (by omega)]
  have hdlw : dilLen gow L.stride = (gow - 1) * L.stride + 1 := by
    unfold dilLen; rw [if_neg (by omega)]
  have hdmh := Nat.div_mul_le_self (ih - ks) L.stride
  have hdmw := Nat.div_mul_le_self (iw - ks) L.stride
  have hpos : 0 < dilLen goh L.stride := by rw [hdlh]; omega
  have hdin : hasShape DIN (dilLen goh L.stride + ks - 1)
      (dilLen gow L.stride + ks - 1) := by
    rw [hDIN]
    exact convolve_shape hdd hKjk hpos (by omega)
  have hdh_le : dilLen goh L.stride + ks - 1 ≤ ih := by
    rw [hdlh]
    have h1 : goh - 1 = (ih - ks) / L.stride := by omega
    rw [h1]
    omega
  have hdw_le : dilLen gow L.stride + ks - 1 ≤ iw := by
    rw [hdlw]
    have h1 : gow - 1 = (iw - ks) / L.stride := by omega
    rw [h1]
    omega
  have hpdh : 0 < dilLen goh L.stride + ks - 1 := by omega
  have hIH : matH (getM4 st1.dinputs i k) = ih := hdiIK.hH
  have hIW : matW (getM4 st1.dinputs i k) = iw := hdiIK.hW hpih
  by_cases hcond : (matH DIN, matW DIN)
      = (matH (getM4 st1.dinputs i k), matW (getM4 st1.dinputs i k))
  · have h1 : matH DIN = ih := by
      have h0 : (matH DIN, matW DIN).1 = (matH (getM4 st1.dinputs i k),
          matW (getM4 st1.dinputs i k)).1 := congrArg Prod.fst hcond
      simpa [hIH] using h0
    have h2 : matW DIN = iw := by
      have h0 : (matH DIN, matW DIN).2 = (matH (getM4 st1.dinputs i k),
          matW (getM4 st1.dinputs i k)).2 := congrArg Prod.snd hcond
      simpa [hIW] using h0
    have e1 : dilLen goh L.stride + ks - 1 = ih := hdin.hH.symm.trans h1
    have e2 : dilLen gow L.stride + ks - 1 = iw := (hdin.hW hpdh).symm.trans h2
    have hDINshape : hasShape DIN ih iw := by rwa [e1, e2] at hdin
    refine ⟨{ st1 with dinputs := modGrid st1.dinputs i k
                          (fun m => matAdd m DIN) }, ?_, ?_, ?_, ?_⟩
    · simp only [convInputPart]
      rw [← hDIN, if_pos hcond]
    · exact ⟨hst.1, hst.2.1,
        Shape4_modGrid hst.2.2 (fun m hm => matAdd_hasShape hm hDINshape)⟩
    · rfl
    · rfl
  · refine ⟨{ st1 with dinputs := modGrid st1.dinputs i k
                          (fun m => matAdd m
                            (mk2 ih iw (fun y x0 => entry DIN y x0))) }, ?_, ?_, ?_, ?_⟩
    · simp only [convInputPart]
      rw [← hDIN, if_neg hcond, hIH, hIW,
        padToShape_ok hdin hpdh hdh_le hdw_le]
    · exact ⟨hst.1, hst.2.1,
        Shape4_modGrid hst.2.2 (fun m hm => matAdd_hasShape hm
          (hasShape_mk2 ih iw fun y x0 => entry DIN y x0))⟩
    · rfl
    · rfl

theorem convStepStrided_ok (L : ConvolutionalLayer) (x δ : Tensor4)
    {ic ih iw oc ks n goh gow : ℕ} (i j k : ℕ) (st : GradSt)
    (hx : Shape4 x n ic ih iw) (hK : Shape4 L.kernels oc ic ks ks)
    (hδ : Shape4 δ n oc goh gow)
    (hgoh : goh = (ih - ks) / L.stride + 1)
    (hgow : gow = (iw - ks) / L.stride + 1)
    (hks : 1 ≤ ks) (hkih : ks ≤ ih) (hkiw : ks ≤ iw) (hsq : ih = iw)
    (hi : i < n) (hj : j < oc) (hk : k < ic)
    (hst : ConvInv oc ic ks goh gow n ih iw st) :
    ∃ st2, convStepStrided L x δ i j k st = Except.ok st2 ∧
      ConvInv oc ic ks goh gow n ih iw st2 := by
  obtain ⟨hkeq, hkinv⟩ :=
    convKernelPart_ok L x δ i j k st hx hδ hgoh hgow hks hkih hsq hi hj hk hst
  obtain ⟨st2, hieq, hiinv, _, _⟩ :=
    convInputPart_ok L δ i j k _ _ rfl hK hδ hgoh hgow hks hkih hkiw hi hj hk hkinv
  refine ⟨st2, ?_, hiinv⟩
  unfold convStepStrided
  rw [hkeq]
  exact hieq

theorem convStepDirect_inv (L : ConvolutionalLayer) (x δ : Tensor4)
    {ic ih iw oc ks n goh gow : ℕ} (i j k : ℕ) (st : GradSt)
    (hx : Shape4 x n ic ih iw) (hK : Shape4 L.kernels oc ic ks ks)
    (hδ : Shape4 δ n oc goh gow)
    (hgoh : goh = ih - ks + 1) (hgow : gow = iw - ks + 1)
    (hks : 1 ≤ ks) (hkih : ks ≤ ih) (hkiw : ks ≤ iw)
    (hi : i < n) (hj : j < oc) (hk : k < ic)
    (hst : ConvInv oc ic ks goh gow n ih iw st) :
    ConvInv oc ic ks goh gow n ih iw (convStepDirect L x δ i j k st) := by
  have hδij : hasShape (getM4 δ i j) goh gow := hδ.getM4 hi hj
  have hxik : hasShape (getM4 x i k) ih iw := hx.getM4 hi hk
  have hKjk : hasShape (getM4 L.kernels j k) ks ks := hK.getM4 hj hk
  have hpih : 0 < ih := by omega
  have hpgoh : 0 < goh := by omega
  have hcorr : hasShape (correlate2dValid (getM4 x i k) (getM4 δ i j)) ks ks := by
    have h1 := correlate_shape hxik hδij hpih hpgoh
    have e1 : ih - goh + 1 = ks := by omega
    have e2 : iw - gow + 1 = ks := by omega
    rwa [e1, e2] at h1
  have hconv : hasShape
      (convolve2dFull (getM4 δ i j) (getM4 L.kernels j k)) ih iw := by
    have h1 := convolve_shape hδij hKjk hpgoh (by omega)
    have e1 : goh + ks - 1 = ih := by omega
    have e2 : gow + ks - 1 = iw := by omega
    rwa [e1, e2] at h1
  exact ⟨Shape4_modGrid hst.1 (fun m hm => matAdd_hasShape hm hcorr), hst.2.1,
    Shape4_modGrid hst.2.2 (fun m hm => matAdd_hasShape hm hconv)⟩

theorem convStepJK_ok (L : ConvolutionalLayer) (x δ : Tensor4)
    {ic ih iw oc ks n goh gow : ℕ} (i j k : ℕ) (st : GradSt)
    (hx : Shape4 x n ic ih iw) (hK : Shape4 L.kernels oc ic ks ks)
    (hδ : Shape4 δ n oc goh gow)
    (hgoh : goh = (ih - ks) / L.stride + 1)
    (hgow : gow = (iw - ks) / L.stride + 1)
    (hks : 1 ≤ ks) (hkih : ks ≤ ih) (hkiw : ks ≤ iw)
    (hsq : L.stride = 1 ∨ ih = iw)
    (hi : i < n) (hj : j < oc) (hk : k < ic)
    (hst : ConvInv oc ic ks goh gow n ih iw st) :
    ∃ st2, convStepJK L x δ i j k st = Except.ok st2 ∧
      ConvInv oc ic ks goh gow n ih iw st2 := by
  by_cases hs1 : L.stride = 1
  · refine ⟨convStepDirect L x δ i j k st, ?_, ?_⟩
    · unfold convStepJK
      rw [if_pos hs1]
    · exact convStepDirect_inv L x δ i j k st hx hK hδ
        (by rw [hgoh, hs1, Nat.div_one]) (by rw [hgow, hs1, Nat.div_one])
        hks hkih hkiw hi hj hk hst
  · have hsq2 : ih = iw := by
      rcases hsq with h1 | h1
      · exact absurd h1 hs1
      · exact h1
    obtain ⟨st2, heq, hinv⟩ :=
      convStepStrided_ok L x δ i j k st hx hK hδ hgoh hgow hks hkih hkiw hsq2
        hi hj hk hst
    refine ⟨st2, ?_, hinv⟩
    unfold convStepJK
    rw [if_neg hs1]
    exact heq

theorem convSampleWith_ok (L : ConvolutionalLayer) (x δ : Tensor4)
    {ic ih iw oc ks n goh gow : ℕ} (i : ℕ) (st : GradSt)
    (hx : Shape4 x n ic ih iw) (hK : Shape4 L.kernels oc ic ks ks)
    (hδ : Shape4 δ n oc goh gow)
    (hgoh : goh = (ih - ks) / L.stride + 1)
    (hgow : gow = (iw - ks) / L.stride + 1)
    (hks : 1 ≤ ks) (hkih : ks ≤ ih) (hkiw : ks ≤ iw)
    (hsq : L.stride = 1 ∨ ih = iw)
    (hi : i < n)
    (hst : ConvInv oc ic ks goh gow n ih iw st) :
    ∃ st2, convSampleWith (convStepJK L x δ) oc ic δ i st = Except.ok st2 ∧
      ConvInv oc ic ks goh gow n ih iw st2 := by
  have hδi : Shape3 (δ.getD i []) oc goh gow := hδ.sample hi
  have h0 : ConvInv oc ic ks goh gow n ih iw
      { st with dbiases := add3 st.dbiases (δ.getD i []) } :=
    ⟨hst.1, Shape3_add3 hst.2.1 hδi, hst.2.2⟩
  unfold convSampleWith
  exact foldE_ok_of _ (List.range oc) _ _ h0
    (fun j hj st1 hst1 =>
      foldE_ok_of _ (List.range ic) _ st1 hst1
        (fun k hk st2 hst2 =>
          convStepJK_ok L x δ i j k st2 hx hK hδ hgoh hgow hks hkih hkiw hsq
            hi (List.mem_range.mp hj) (List.mem_range.mp hk) hst2))

theorem conv_backward_ok (L : ConvolutionalLayer) (x δ : Tensor4)
    {ih iw ks n goh gow : ℕ}
    (hinp : L.inputs = some x)
    (hx : Shape4 x n L.input_channels ih iw)
    (hK : Shape4 L.kernels L.output_channels L.input_channels ks ks)
    (hB : Shape3 L.biases L.output_channels goh gow)
    (hδ : Shape4 δ n L.output_channels goh gow)
    (hgoh : goh = (ih - ks) / L.stride + 1)
    (hgow : gow = (iw - ks) / L.stride + 1)
    (hks : 1 ≤ ks) (hkih : ks ≤ ih) (hkiw : ks ≤ iw)
    (hsq : L.stride = 1 ∨ ih = iw) :
    ∃ M, ConvolutionalLayer.backward L δ = Except.ok M ∧
      (∃ dk, M.dkernels = some dk ∧
        Shape4 dk L.output_channels L.input_channels ks ks) ∧
      (∃ db, M.dbiases = some db ∧ Shape3 db L.output_channels goh gow) ∧
      (∃ di, M.dinputs = some di ∧ Shape4 di n L.input_channels ih iw) ∧
      M.kernels = L.kernels ∧ M.biases = L.biases ∧ M.inputs = L.inputs := by
  have h0 : ConvInv L.output_channels L.input_channels ks goh gow n ih iw
      ⟨zerosLike4 L.kernels, zerosLike3 L.biases, zerosLike4 x⟩ :=
    ⟨zerosLike4_Shape hK, zerosLike3_Shape hB, zerosLike4_Shape hx⟩
  obtain ⟨stf, hfold, hinv⟩ :=
    foldE_ok_of (ConvInv L.output_channels L.input_channels ks goh gow n ih iw)
      (List.range x.length)
      (fun i => convSampleWith (convStepJK L x δ)
        L.output_channels L.input_channels δ i)
      ⟨zerosLike4 L.kernels, zerosLike3 L.biases, zerosLike4 x⟩ h0
      (fun i hi st hst =>
        convSampleWith_ok L x δ i st hx hK hδ hgoh hgow hks hkih hkiw hsq
          (hx.1 ▸ List.mem_range.mp hi) hst)
  refine ⟨{ L with
            dkernels := some stf.dkernels
            dbiases := some stf.dbiases
            dinputs := some stf.dinputs },
    ?_, ⟨stf.dkernels, rfl, hinv.1⟩, ⟨stf.dbiases, rfl, hinv.2.1⟩,
    ⟨stf.dinputs, rfl, hinv.2.2⟩, rfl, rfl, rfl⟩
  simp only [ConvolutionalLayer.backward, ConvolutionalLayer.backwardWith, hinp]
  rw [hfold]

theorem convInputPart_eq_of_match (L : ConvolutionalLayer) (δ : Tensor4)
    (i j k : ℕ) (st1 : GradSt) (DIN : Mat)
    (hDIN : DIN = convolve2dFull (dilate (getM4 δ i j) L.stride)
      (getM4 L.kernels j k))
    (hcond : (matH DIN, matW DIN)
      = (matH (getM4 st1.dinputs i k), matW (getM4 st1.dinputs i k))) :
    convInputPart L δ i j k st1
      = Except.ok { st1 with dinputs := modGrid st1.dinputs i k
                               (fun m => matAdd m DIN) } := by
  simp only [convInputPart]
  rw [← hDIN, if_pos hcond]

theorem convStepStrided_eq_direct (L : ConvolutionalLayer) (x δ : Tensor4)
    {ic ih iw oc ks n goh gow : ℕ} (i j k : ℕ) (st : GradSt)
    (hs1 : L.stride = 1)
    (hx : Shape4 x n ic ih iw) (hK : Shape4 L.kernels oc ic ks ks)
    (hδ : Shape4 δ n oc goh gow)
    (hgoh : goh = ih - ks + 1) (hgow : gow = iw - ks + 1) (hsq : ih = iw)
    (hks : 1 ≤ ks) (hkih : ks ≤ ih)
    (hi : i < n) (hj : j < oc) (hk : k < ic)
    (hst : ConvInv oc ic ks goh gow n ih iw st) :
    convStepStrided L x δ i j k st
      = Except.ok (convStepDirect L x δ i j k st) := by
  subst hsq
  subst hgoh
  subst hgow
  have hδij : hasShape (getM4 δ i j) (ih - ks + 1) (ih - ks + 1) := hδ.getM4 hi hj
  have hone : dilate (getM4 δ i j) L.stride = getM4 δ i j := by
    rw [hs1]; exact dilate_one hδij
  obtain ⟨hkeq, hkinv⟩ :=
    convKernelPart_ok L x δ i j k st hx hδ (by rw [hs1, Nat.div_one])
      (by rw [hs1, Nat.div_one]) hks hkih rfl hi hj hk hst
  rw [hone, mk2_entry_self_shape hδij] at hkeq
  have hKjk : hasShape (getM4 L.kernels j k) ks ks := hK.getM4 hj hk
  have hpih : 0 < ih := by omega
  have hpgoh : 0 < ih - ks + 1 := by omega
  have hDINshape : hasShape (convolve2dFull (dilate (getM4 δ i j) L.stride)
      (getM4 L.kernels j k)) ih ih := by
    rw [hone]
    have h1 := convolve_shape hδij hKjk hpgoh (by omega)
    have e1 : ih - ks + 1 + ks - 1 = ih := by omega
    rwa [e1] at h1
  have hdiIK : hasShape (getM4 st.dinputs i k) ih ih := hst.2.2.getM4 hi hk
  have hcond : (matH (convolve2dFull (dilate (getM4 δ i j) L.stride)
        (getM4 L.kernels j k)),
      matW (convolve2dFull (dilate (getM4 δ i j) L.stride)
        (getM4 L.kernels j k)))
      = (matH (getM4 st.dinputs i k), matW (getM4 st.dinputs i k)) := by
    rw [hDINshape.hH, hDINshape.hW hpih, hdiIK.hH, hdiIK.hW hpih]
  have hfin1 : convStepStrided L x δ i j k st
      = convInputPart L δ i j k
          ⟨modGrid st.dkernels j k fun m =>
              matAdd m (correlate2dValid (getM4 x i k) (getM4 δ i j)),
            st.dbiases, st.dinputs⟩ := by
    unfold convStepStrided
    rw [hkeq]
  rw [hfin1,
    convInputPart_eq_of_match L δ i j k
      ⟨modGrid st.dkernels j k fun m =>
          matAdd m (correlate2dValid (getM4 x i k) (getM4 δ i j)),
        st.dbiases, st.dinputs⟩ _ rfl hcond]
  rw [hone]
  rfl

theorem conv_backwardAllStrided_eq (L : ConvolutionalLayer) (x δ : Tensor4)
    {ih iw ks n goh gow : ℕ}
    (hs1 : L.stride = 1)
    (hinp : L.inputs = some x)
    (hx : Shape4 x n L.input_channels ih iw)
    (hK : Shape4 L.kernels L.output_channels L.input_channels ks ks)
    (hB : Shape3 L.biases L.output_channels goh gow)
    (hδ : Shape4 δ n L.output_channels goh gow)
    (hgoh : goh = ih - ks + 1) (hgow : gow = iw - ks + 1) (hsq : ih = iw)
    (hks : 1 ≤ ks) (hkih : ks ≤ ih) :
    ConvolutionalLayer.backwardAllStrided L δ
      = ConvolutionalLayer.backward L δ := by
  have hgoh2 : goh = (ih - ks) / L.stride + 1 := by
    rw [hs1, Nat.div_one]; exact hgoh
  have hgow2 : gow = (iw - ks) / L.stride + 1 := by
    rw [hs1, Nat.div_one]; exact hgow
  have hkiw : ks ≤ iw := by omega
  have hstepeq : ∀ i j k : ℕ, i < n → j < L.output_channels →
      k < L.input_channels → ∀ st,
      ConvInv L.output_channels L.input_channels ks goh gow n ih iw st →
      convStepStrided L x δ i j k st = convStepJK L x δ i j k st := by
    intro i j k hi hj hk st hst
    rw [convStepStrided_eq_direct L x δ i j k st hs1 hx hK hδ hgoh hgow hsq
      hks hkih hi hj hk hst]
    unfold convStepJK
    rw [if_pos hs1]
  have hpresJK : ∀ i j k : ℕ, i < n → j < L.output_channels →
      k < L.input_channels → ∀ st st',
      ConvInv L.output_channels L.input_channels ks goh gow n ih iw st →
      convStepJK L x δ i j k st = Except.ok st' →
      ConvInv L.output_channels L.input_channels ks goh gow n ih iw st' := by
    intro i j k hi hj hk st st' hst heq
    obtain ⟨st3, heq2, hP3⟩ := convStepJK_ok L x δ i j k st hx hK hδ hgoh2
      hgow2 hks hkih hkiw (Or.inl hs1) hi hj hk hst
    rw [heq] at heq2
    have he : st' = st3 := Except.ok.inj heq2
    rw [he]
    exact hP3
  have hsampleeq : ∀ i ∈ List.range x.length, ∀ st,
      ConvInv L.output_channels L.input_channels ks goh gow n ih iw st →
      convSampleWith (convStepStrided L x δ)
          L.output_channels L.input_channels δ i st
        = convSampleWith (convStepJK L x δ)
            L.output_channels L.input_channels δ i st := by
    intro i hi st hst
    have hin : i < n := hx.1 ▸ List.mem_range.mp hi
    unfold convSampleWith
    apply foldE_congr
      (ConvInv L.output_channels L.input_channels ks goh gow n ih iw)
    · exact ⟨hst.1, Shape3_add3 hst.2.1 (hδ.sample hin), hst.2.2⟩
    · intro j hj st1 hst1
      apply foldE_congr
        (ConvInv L.output_channels L.input_channels ks goh gow n ih iw)
      · exact hst1
      · intro k hk st2 hst2
        exact hstepeq i j k hin (List.mem_range.mp hj) (List.mem_range.mp hk)
          st2 hst2
      · intro k hk st2 st3 hst2 heq
        exact hpresJK i j k hin (List.mem_range.mp hj) (List.mem_range.mp hk)
          st2 st3 hst2 heq
    · intro j hj st1 st2 hst1 heq
      obtain ⟨st3, heq2, hP3⟩ := foldE_ok_of
        (ConvInv L.output_channels L.input_channels ks goh gow n ih iw)
        (List.range L.input_channels) (fun k st0 => convStepJK L x δ i j k st0)
        st1 hst1
        (fun k hk st4 hst4 =>
          convStepJK_ok L x δ i j k st4 hx hK hδ hgoh2 hgow2 hks hkih hkiw
            (Or.inl hs1) hin (List.mem_range.mp hj) (List.mem_range.mp hk) hst4)
      rw [heq] at heq2
      have he : st2 = st3 := Except.ok.inj heq2
      rw [he]
      exact hP3
  have hsamplepres : ∀ i ∈ List.range x.length, ∀ st st',
      ConvInv L.output_channels L.input_channels ks goh gow n ih iw st →
      convSampleWith (convStepJK L x δ)
          L.output_channels L.input_channels δ i st = Except.ok st' →
      ConvInv L.output_channels L.input_channels ks goh gow n ih iw st' := by
    intro i hi st st' hst heq
    have hin : i < n := hx.1 ▸ List.mem_range.mp hi
    obtain ⟨st3, heq2, hP3⟩ := convSampleWith_ok L x δ i st hx hK hδ hgoh2
      hgow2 hks hkih hkiw (Or.inl hs1) hin hst
    rw [heq] at heq2
    have he : st' = st3 := Except.ok.inj heq2
    rw [he]
    exact hP3
  have h0 : ConvInv L.output_channels L.input_channels ks goh gow n ih iw
      ⟨zerosLike4 L.kernels, zerosLike3 L.biases, zerosLike4 x⟩ :=
    ⟨zerosLike4_Shape hK, zerosLike3_Shape hB, zerosLike4_Shape hx⟩
  have hcongr := foldE_congr
    (ConvInv L.output_channels L.input_channels ks goh gow n ih iw)
    (List.range x.length)
    (fun i => convSampleWith (convStepStrided L x δ)
      L.output_channels L.input_channels δ i)
    (fun i => convSampleWith (convStepJK L x δ)
      L.output_channels L.input_channels δ i)
    ⟨zerosLike4 L.kernels, zerosLike3 L.biases, zerosLike4 x⟩
    h0 hsampleeq hsamplepres
  simp only [ConvolutionalLayer.backwardAllStrided, ConvolutionalLayer.backward,
    ConvolutionalLayer.backwardWith, hinp]
  rw [hcongr]

theorem entry_subsample {m : Mat} {mh mw : ℕ} (hm : hasShape m mh mw)
    (hp : 0 < mh) {s y z : ℕ} (hy : y < (mh + s - 1) / s)
    (hz : z < (mw + s - 1) / s) :
    entry (subsampleStride m s) y z = entry m (y * s) (z * s) := by
  unfold subsampleStride
  rw [hm.hH, hm.hW hp]
  exact entry_mk2_in _ _ _ hy hz

theorem getM4_rangeMap (F : ℕ → ℕ → Mat) (a b i j : ℕ) (hi : i < a) (hj : j < b) :
    getM4 ((List.range a).map fun i2 => (List.range b).map fun j2 => F i2 j2) i j
      = F i j := by
  unfold getM4
  rw [getD_rangeMap, if_pos hi]
  show ((List.range b).map fun j2 => F i j2).getD j [] = F i j
  rw [getD_rangeMap, if_pos hj]

theorem conv_forward_spec (L : ConvolutionalLayer) (x : Tensor4)
    {ih iw ks n goh gow : ℕ}
    (hx : Shape4 x n L.input_channels ih iw)
    (hK : Shape4 L.kernels L.output_channels L.input_channels ks ks)
    (hB : Shape3 L.biases L.output_channels goh gow)
    (hohN : L.output_height.toNat = goh) (howN : L.output_width.toNat = gow)
    (hgoh : goh = (ih - ks) / L.stride + 1)
    (hgow : gow = (iw - ks) / L.stride + 1)
    (hs1 : 1 ≤ L.stride) (hks : 1 ≤ ks) (hkih : ks ≤ ih) (hkiw : ks ≤ iw) :
    ∃ OUT, (L.forward x).output = some OUT ∧
      Shape4 OUT n L.output_channels goh gow ∧
      ∀ i < n, ∀ j < L.output_channels, ∀ y < goh, ∀ z < gow,
        entry4 OUT i j y z = entry3 L.biases j y z +
          Finset.sum (Finset.range L.input_channels) (fun c =>
            entry (correlate2dValid (getM4 x i c) (getM4 L.kernels j c))
              (y * L.stride) (z * L.stride)) := by
  have hpih : 0 < ih := by omega
  have hcorr : ∀ i < n, ∀ j < L.output_channels, ∀ c < L.input_channels,
      hasShape (correlate2dValid (getM4 x i c) (getM4 L.kernels j c))
        (ih - ks + 1) (iw - ks + 1) := by
    intro i hi j hj c hc
    exact correlate_shape (hx.getM4 hi hc) (hK.getM4 hj hc) hpih (by omega)
  have harith : ih - ks + 1 + L.stride - 1 = ih - ks + L.stride := by omega
  have harith2 : iw - ks + 1 + L.stride - 1 = iw - ks + L.stride := by omega
  have hdivh : (ih - ks + 1 + L.stride - 1) / L.stride = goh := by
    rw [harith, Nat.add_div_right _ (by omega : 0 < L.stride), hgoh]
  have hdivw : (iw - ks + 1 + L.stride - 1) / L.stride = gow := by
    rw [harith2, Nat.add_div_right _ (by omega : 0 < L.stride), hgow]
  have hF : ∀ i < n, ∀ j < L.output_channels, ∀ c < L.input_channels,
      hasShape (subsampleStride
        (correlate2dValid (getM4 x i c) (getM4 L.kernels j c)) L.stride)
        goh gow := by
    intro i hi j hj c hc
    have h1 := subsample_shape (hcorr i hi j hj c hc) (by omega) L.stride
    rwa [hdivh, hdivw] at h1
  have hB0 : ∀ j < L.output_channels,
      hasShape (matAdd (zerosMat L.output_height.toNat L.output_width.toNat)
        (getM3 L.biases j)) goh gow := by
    intro j hj
    rw [hohN, howN]
    exact matAdd_hasShape (hasShape_mk2 goh gow _) (hB.getM3 hj)
  have hfold : ∀ i < n, ∀ j < L.output_channels,
      hasShape ((List.range L.input_channels).foldl
        (fun acc c => matAdd acc (subsampleStride
          (correlate2dValid (getM4 x i c) (getM4 L.kernels j c)) L.stride))
        (matAdd (zerosMat L.output_height.toNat L.output_width.toNat)
          (getM3 L.biases j))) goh gow ∧
      ∀ y < goh, ∀ z < gow,
        entry ((List.range L.input_channels).foldl
          (fun acc c => matAdd acc (subsampleStride
            (correlate2dValid (getM4 x i c) (getM4 L.kernels j c)) L.stride))
          (matAdd (zerosMat L.output_height.toNat L.output_width.toNat)
            (getM3 L.biases j))) y z
          = entry (matAdd (zerosMat L.output_height.toNat L.output_width.toNat)
              (getM3 L.biases j)) y z +
            Finset.sum (Finset.range L.input_channels) (fun c =>
              entry (subsampleStride
                (correlate2dValid (getM4 x i c) (getM4 L.kernels j c))
                L.stride) y z) := by
    intro i hi j hj
    exact foldl_matAdd _ _ _ _ _ (hB0 j hj) (fun c hc => hF i hi j hj c hc)
  refine ⟨_, rfl, ?_, ?_⟩
  · constructor
    · simp [hx.1]
    · intro smp hsmp
      simp only [List.mem_map, List.mem_range] at hsmp
      obtain ⟨i, hi, rfl⟩ := hsmp
      have hin : i < n := by
        have := hx.1
        omega
      constructor
      · simp
      · intro m hm
        simp only [List.mem_map, List.mem_range] at hm
        obtain ⟨j, hj, rfl⟩ := hm
        exact (hfold i hin j hj).1
  · intro i hi j hj y hy z hz
    have hi2 : i < x.length := by rw [hx.1]; exact hi
    unfold entry4
    rw [getM4_rangeMap _ _ _ i j hi2 hj]
    rw [(hfold i hi j hj).2 y hy z hz]
    have hb : entry (matAdd (zerosMat L.output_height.toNat L.output_width.toNat)
        (getM3 L.biases j)) y z = entry3 L.biases j y z := by
      have h1 : entry (matAdd (zerosMat L.output_height.toNat
          L.output_width.toNat) (getM3 L.biases j)) y z
          = entry (zerosMat L.output_height.toNat L.output_width.toNat) y z
            + entry (getM3 L.biases j) y z := by
        apply entry_matAdd _ (hB.getM3 hj) hy hz
        rw [hohN, howN]
        exact hasShape_mk2 goh gow _
      rw [h1]
      have h2 : entry (zerosMat L.output_height.toNat L.output_width.toNat) y z
          = 0 := by
        unfold zerosMat
        rw [hohN, howN]
        exact entry_mk2_in goh gow _ hy hz
      rw [h2, zero_add]
      rfl
    rw [hb]
    congr 1
    apply Finset.sum_congr rfl
    intro c hc
    have hc2 : c < L.input_channels := Finset.mem_range.mp hc
    have h3 := entry_subsample (hcorr i hi j hj c hc2) (by omega)
      (by rw [hdivh]; exact hy) (by rw [hdivw]; exact hz)
    exact h3

/-! ### Dense-layer algebra lemmas -/

theorem transposeM_shape {m : Mat} {h w : ℕ} (hm : hasShape m h w) (hp : 0 < h) :
    hasShape (transposeM m) w h := by
  unfold transposeM
  rw [hm.hH, hm.hW hp]
  exact hasShape_mk2 _ _ _

theorem entry_transposeM {m : Mat} {h w : ℕ} (hm : hasShape m h w) (hp : 0 < h)
    {i j : ℕ} (hi : i < w) (hj : j < h) :
    entry (transposeM m) i j = entry m j i := by
  unfold transposeM
  rw [hm.hH, hm.hW hp]
  exact entry_mk2_in _ _ _ hi hj

theorem matMul_shape {a b : Mat} {m p q : ℕ} (ha : hasShape a m p)
    (hb : hasShape b p q) (hpb : 0 < p) : hasShape (matMul a b) m q := by
  unfold matMul
  rw [ha.hH, hb.hW hpb]
  exact hasShape_mk2 _ _ _

theorem entry_matMul {a b : Mat} {m p q : ℕ} (ha : hasShape a m p)
    (hb : hasShape b p q) (hpa : 0 < m) (hpb : 0 < p)
    {i j : ℕ} (hi : i < m) (hj : j < q) :
    entry (matMul a b) i j
      = Finset.sum (Finset.range p) fun t => entry a i t * entry b t j := by
  unfold matMul
  rw [ha.hH, hb.hW hpb, ha.hW hpa]
  exact entry_mk2_in _ _ _ hi hj

theorem sumAxis0_spec {m : Mat} {h w : ℕ} (hm : hasShape m h w) (hp : 0 < h) :
    (sumAxis0 m).length = w ∧ ∀ j < w, (sumAxis0 m).getD j 0
      = Finset.sum (Finset.range h) fun i => entry m i j := by
  unfold sumAxis0
  rw [hm.hW hp, hm.hH]
  exact ⟨by simp, fun j hj => by rw [getD_rangeMap, if_pos hj]⟩

theorem dense_backward_spec {nIn nNeu bD : ℕ} (W x δ : Mat)
    (hW : hasShape W nIn nNeu) (hx : hasShape x bD nIn) (hδ : hasShape δ bD nNeu)
    (hpb : 0 < bD) (hpi : 0 < nIn) (hpn : 0 < nNeu) :
    ∃ dw db di,
      (DenseLayer.backward (DenseLayer.forward (DenseLayer.init nIn nNeu W) x)
        δ).dweights = some dw ∧
      (DenseLayer.backward (DenseLayer.forward (DenseLayer.init nIn nNeu W) x)
        δ).dbiases = some db ∧
      (DenseLayer.backward (DenseLayer.forward (DenseLayer.init nIn nNeu W) x)
        δ).dinputs = some di ∧
      hasShape dw nIn nNeu ∧ db.length = nNeu ∧ hasShape di bD nIn ∧
      (∀ p < nIn, ∀ q < nNeu, entry dw p q
        = Finset.sum (Finset.range bD) fun i => entry x i p * entry δ i q) ∧
      (∀ q < nNeu, db.getD q 0
        = Finset.sum (Finset.range bD) fun i => entry δ i q) ∧
      (∀ i < bD, ∀ p < nIn, entry di i p
        = Finset.sum (Finset.range nNeu) fun q => entry δ i q * entry W p q) := by
  have hxT : hasShape (transposeM x) nIn bD := transposeM_shape hx hpb
  have hWT : hasShape (transposeM W) nNeu nIn := transposeM_shape hW hpi
  refine ⟨matMul (transposeM x) δ, sumAxis0 δ, matMul δ (transposeM W),
    rfl, rfl, rfl, matMul_shape hxT hδ hpb, (sumAxis0_spec hδ hpb).1,
    matMul_shape hδ hWT hpn, ?_, (sumAxis0_spec hδ hpb).2, ?_⟩
  · intro p hp q hq
    rw [entry_matMul hxT hδ hpi hpb hp hq]
    apply Finset.sum_congr rfl
    intro t ht
    rw [entry_transposeM hx hpb hp (Finset.mem_range.mp ht)]
  · intro i hi p hp
    rw [entry_matMul hδ hWT hpb hpn hi hp]
    apply Finset.sum_congr rfl
    intro q hq
    rw [entry_transposeM hW hpi (Finset.mem_range.mp hq) hp]

/-! ### Reshape flatten/unflatten lemmas -/

theorem flatten2_length {m : Mat} {h w : ℕ} (hm : hasShape m h w) :
    (List.flatten m).length = h * w := by
  induction m generalizing h with
  | nil =>
    have h0 : h = 0 := by
      have := hm.1
      simp at this
      omega
    simp [h0]
  | cons r t ih =>
    have hh : t.length + 1 = h := by
      have := hm.1
      simpa using this
    have hht : hasShape t t.length w :=
      ⟨rfl, fun r2 hr2 => hm.2 r2 (List.mem_cons_of_mem _ hr2)⟩
    rw [List.flatten_cons, List.length_append, hm.2 r (by simp),
      ih hht, ← hh]
    ring

theorem flatten2_getD {m : Mat} {w : ℕ} (hm : ∀ r ∈ m, r.length = w) :
    ∀ y, y < m.length → ∀ z, z < w →
      (List.flatten m).getD (y * w + z) 0 = entry m y z := by
  induction m with
  | nil => intro y hy; simp at hy
  | cons r t ih =>
    intro y hy z hz
    cases y with
    | zero =>
      rw [List.flatten_cons]
      have hr : r.length = w := hm r (by simp)
      have hlt : 0 * w + z < r.length := by omega
      rw [List.getD_append _ _ _ _ hlt]
      show r.getD (0 * w + z) 0 = r.getD z 0
      congr 1
      omega
    | succ y2 =>
      rw [List.flatten_cons]
      have hr : r.length = w := hm r (by simp)
      have harith : (y2 + 1) * w + z = r.length + (y2 * w + z) := by
        rw [hr]
        ring
      rw [harith, List.getD_append_right _ _ _ _ (by omega)]
      have : r.length + (y2 * w + z) - r.length = y2 * w + z := by omega
      rw [this]
      exact ih (fun r2 hr2 => hm r2 (List.mem_cons_of_mem _ hr2)) y2
        (by simpa using hy) z hz

theorem flattenSample_getD {t : Tensor3} {d h w : ℕ} (ht : Shape3 t d h w) :
    ∀ a, a < d → ∀ k, k < h * w →
      (flattenSample t).getD (a * (h * w) + k) 0
        = (List.flatten (t.getD a [])).getD k 0 := by
  unfold flattenSample
  induction t generalizing d with
  | nil =>
    intro a ha
    have : d = 0 := by
      have := ht.1
      simp at this
      omega
    omega
  | cons s rest ih =>
    intro a ha k hk
    have hs : hasShape s h w := ht.2 s (by simp)
    have hrest : Shape3 rest rest.length h w :=
      ⟨rfl, fun m hm2 => ht.2 m (List.mem_cons_of_mem _ hm2)⟩
    cases a with
    | zero =>
      rw [List.map_cons, List.flatten_cons]
      have hlen : (List.flatten s).length = h * w := flatten2_length hs
      have hlt : 0 * (h * w) + k < (List.flatten s).length := by
        rw [hlen]; omega
      rw [List.getD_append _ _ _ _ hlt]
      show (List.flatten s).getD (0 * (h * w) + k) 0 = _
      have he : 0 * (h * w) + k = k := by omega
      rw [he]
      rfl
    | succ a2 =>
      rw [List.map_cons, List.flatten_cons]
      have hlen : (List.flatten s).length = h * w := flatten2_length hs
      have harith : (a2 + 1) * (h * w) + k
          = (List.flatten s).length + (a2 * (h * w) + k) := by
        rw [hlen]
        ring
      rw [harith, List.getD_append_right _ _ _ _ (by omega)]
      have he : (List.flatten s).length + (a2 * (h * w) + k)
          - (List.flatten s).length = a2 * (h * w) + k := by omega
      rw [he]
      have ha2 : a2 < rest.length := by
        have := ht.1
        simp at this
        omega
      exact ih hrest a2 ha2 k hk

theorem unflatten_flatten {t : Tensor3} {d h w : ℕ} (ht : Shape3 t d h w) :
    unflattenSample d h w (flattenSample t) = t := by
  unfold unflattenSample
  have hstep : ∀ a < d,
      (mk2 h w fun y z => (flattenSample t).getD (a * (h * w) + y * w + z) 0)
        = t.getD a [] := by
    intro a ha
    have hs : hasShape (t.getD a []) h w :=
      ht.2 _ (getD_mem (by rw [ht.1]; exact ha) _)
    have hcg : ∀ y < h, ∀ z < w,
        (flattenSample t).getD (a * (h * w) + y * w + z) 0
          = entry (t.getD a []) y z := by
      intro y hy z hz
      have hk : y * w + z < h * w := by
        have h1 : (y + 1) * w = y * w + w := by ring
        have h2 : (y + 1) * w ≤ h * w := Nat.mul_le_mul_right w (by omega)
        omega
      have he : a * (h * w) + y * w + z = a * (h * w) + (y * w + z) := by omega
      rw [he, flattenSample_getD ht a ha (y * w + z) hk]
      exact flatten2_getD hs.2 y (by rw [hs.1]; exact hy) z hz
    rw [mk2_congr hcg, mk2_entry_self_shape hs]
  have hmap : (List.range d).map (fun a => mk2 h w fun y z =>
        (flattenSample t).getD (a * (h * w) + y * w + z) 0)
      = (List.range d).map (fun a => t.getD a []) := mapRange_congr d _ _ hstep
  rw [hmap, ← ht.1, rangeMap_getD_self]

/-! ### Remaining helper lemmas -/

theorem getD_map {α β : Type} (f : α → β) {l : List α} {i : ℕ}
    (h : i < l.length) (d : α) (d2 : β) :
    (l.map f).getD i d2 = f (l.getD i d) := by
  induction l generalizing i with
  | nil => simp at h
  | cons a t ih =>
    cases i with
    | zero => rfl
    | succ m => exact ih (by simpa using h)

theorem unflattenSample_Shape (d h w : ℕ) (v : List ℤ) :
    Shape3 (unflattenSample d h w v) d h w := by
  constructor
  · simp [unflattenSample]
  · intro m hm
    simp only [unflattenSample, List.mem_map, List.mem_range] at hm
    obtain ⟨a, _, rfl⟩ := hm
    exact hasShape_mk2 _ _ _

theorem backwardWith_state
    (stepOf : Tensor4 → ℕ → ℕ → ℕ → GradSt → Except GradSt GradSt)
    (L : ConvolutionalLayer) (δ : Tensor4) :
    (stateOf (L.backwardWith stepOf δ)).kernels = L.kernels ∧
    (stateOf (L.backwardWith stepOf δ)).biases = L.biases ∧
    (stateOf (L.backwardWith stepOf δ)).inputs = L.inputs ∧
    (stateOf (L.backwardWith stepOf δ)).output = L.output ∧
    (stateOf (L.backwardWith stepOf δ)).dkernels.isSome = true ∧
    (stateOf (L.backwardWith stepOf δ)).dbiases.isSome = true := by
  unfold ConvolutionalLayer.backwardWith
  cases L.inputs with
  | none => exact ⟨rfl, rfl, rfl, rfl, rfl, rfl⟩
  | some x0 =>
    dsimp only
    cases foldE (List.range x0.length)
        (fun i => convSampleWith (stepOf x0)
          L.output_channels L.input_channels δ i)
        ⟨zerosLike4 L.kernels, zerosLike3 L.biases, zerosLike4 x0⟩ with
    | error st => exact ⟨rfl, rfl, rfl, rfl, rfl, rfl⟩
    | ok st => exact ⟨rfl, rfl, rfl, rfl, rfl, rfl⟩

/-! ### Claim theorems -/

/-- Claim C2: for every ConvolutionalLayer built from `input_shape =
(ic, ih, iw)`, `output_channels`, square `kernel_size` and `stride`, and every
input batch matching `input_shape` (with `1 ≤ kernel_size ≤ ih, iw` and
`1 ≤ stride`; random parameters modelled by arbitrary arrays of the allocated
shapes), forward produces an output of shape
`[n, oc, (ih - ks) / s + 1, (iw - ks) / s + 1]` (the floor formula, which the
constructor also stores in `output_shape`), equal to the biases broadcast over
the batch plus, for each sample and output channel, the sum over input
channels of the valid-mode 2D cross-correlation of the input channel with the
corresponding kernel, subsampled at every stride-th row and column starting at
index 0. -/
theorem spec_C2_conv_forward (ic ih iw oc ks s n : ℕ) (K : Tensor4)
    (B : Tensor3) (x : Tensor4)
    (hK : Shape4 K oc ic ks ks)
    (hB : Shape3 B oc ((ih - ks) / s + 1) ((iw - ks) / s + 1))
    (hx : Shape4 x n ic ih iw)
    (hs1 : 1 ≤ s) (hks : 1 ≤ ks) (hkih : ks ≤ ih) (hkiw : ks ≤ iw) :
    (ConvolutionalLayer.init (ic, ih, iw) oc ks s K B).output_height
      = (((ih - ks) / s + 1 : ℕ) : ℤ) ∧
    (ConvolutionalLayer.init (ic, ih, iw) oc ks s K B).output_width
      = (((iw - ks) / s + 1 : ℕ) : ℤ) ∧
    ∃ OUT,
      ((ConvolutionalLayer.init (ic, ih, iw) oc ks s K B).forward x).output
        = some OUT ∧
      Shape4 OUT n oc ((ih - ks) / s + 1) ((iw - ks) / s + 1) ∧
      ∀ i < n, ∀ j < oc, ∀ y < (ih - ks) / s + 1, ∀ z < (iw - ks) / s + 1,
        entry4 OUT i j y z = entry3 B j y z +
          Finset.sum (Finset.range ic) (fun c =>
            entry (correlate2dValid (getM4 x i c) (getM4 K j c))
              (y * s) (z * s)) := by
  refine ⟨convInit_output_height ic ih iw oc ks s K B hkih,
    convInit_output_width ic ih iw oc ks s K B hkiw, ?_⟩
  have hoh : Int.toNat (ConvolutionalLayer.output_height
      (ConvolutionalLayer.init (ic, ih, iw) oc ks s K B)) = (ih - ks) / s + 1 := by
    rw [convInit_output_height ic ih iw oc ks s K B hkih]
    exact Int.toNat_natCast _
  have how : Int.toNat (ConvolutionalLayer.output_width
      (ConvolutionalLayer.init (ic, ih, iw) oc ks s K B)) = (iw - ks) / s + 1 := by
    rw [convInit_output_width ic ih iw oc ks s K B hkiw]
    exact Int.toNat_natCast _
  exact conv_forward_spec (ConvolutionalLayer.init (ic, ih, iw) oc ks s K B)
    x hx hK hB hoh how rfl rfl hs1 hks hkih hkiw

/-- Witness for C2: the spec's concrete scenario (3x3 all-ones input, one 2x2
all-ones kernel, stride 1, zero biases). -/
theorem spec_C2_conv_forward_witness :
    Shape4 [[[[(1:ℤ),1],[1,1]]]] 1 1 2 2 ∧
    Shape3 [[[(0:ℤ),0],[0,0]]] 1 ((3-2)/1+1) ((3-2)/1+1) ∧
    Shape4 [[[[(1:ℤ),1,1],[1,1,1],[1,1,1]]]] 1 1 3 3 ∧
    ((ConvolutionalLayer.init (1, 3, 3) 1 2 1 [[[[(1:ℤ),1],[1,1]]]]
        [[[(0:ℤ),0],[0,0]]]).output_height = (((3-2)/1+1 : ℕ) : ℤ) ∧
      (ConvolutionalLayer.init (1, 3, 3) 1 2 1 [[[[(1:ℤ),1],[1,1]]]]
        [[[(0:ℤ),0],[0,0]]]).output_width = (((3-2)/1+1 : ℕ) : ℤ) ∧
      ∃ OUT,
        ((ConvolutionalLayer.init (1, 3, 3) 1 2 1 [[[[(1:ℤ),1],[1,1]]]]
          [[[(0:ℤ),0],[0,0]]]).forward
            [[[[(1:ℤ),1,1],[1,1,1],[1,1,1]]]]).output = some OUT ∧
        Shape4 OUT 1 1 ((3-2)/1+1) ((3-2)/1+1) ∧
        ∀ i < 1, ∀ j < 1, ∀ y < (3-2)/1+1, ∀ z < (3-2)/1+1,
          entry4 OUT i j y z = entry3 [[[(0:ℤ),0],[0,0]]] j y z +
            Finset.sum (Finset.range 1) (fun c =>
              entry (correlate2dValid
                (getM4 [[[[(1:ℤ),1,1],[1,1,1],[1,1,1]]]] i c)
                (getM4 [[[[(1:ℤ),1],[1,1]]]] j c)) (y * 1) (z * 1))) :=
  ⟨by decide, by decide, by decide,
    spec_C2_conv_forward 1 3 3 1 2 1 1 [[[[(1:ℤ),1],[1,1]]]]
      [[[(0:ℤ),0],[0,0]]] [[[[(1:ℤ),1,1],[1,1,1],[1,1,1]]]]
      (by decide) (by decide) (by decide)
      (by decide) (by decide) (by decide) (by decide)⟩

/-- Claim C7: for every DenseLayer (random weights modelled as an arbitrary
`n_inputs × n_neurons` matrix, all dimensions positive), after a forward call
on inputs of shape `[batch, n_inputs]`, a backward call with a delta of shape
`[batch, n_neurons]` sets `dweights` to `inputsᵀ · delta` (shape
`[n_inputs, n_neurons]`), `dbiases` to the sum of delta over the batch axis
(length `n_neurons`), and `dinputs` to `delta · weightsᵀ` (shape
`[batch, n_inputs]`), stated entrywise. -/
theorem spec_C7_dense_backward {nIn nNeu bD : ℕ} (W x δ : Mat)
    (hW : hasShape W nIn nNeu) (hx : hasShape x bD nIn)
    (hδ : hasShape δ bD nNeu)
    (hpb : 0 < bD) (hpi : 0 < nIn) (hpn : 0 < nNeu) :
    ∃ dw db di,
      (DenseLayer.backward (DenseLayer.forward (DenseLayer.init nIn nNeu W) x)
        δ).dweights = some dw ∧
      (DenseLayer.backward (DenseLayer.forward (DenseLayer.init nIn nNeu W) x)
        δ).dbiases = some db ∧
      (DenseLayer.backward (DenseLayer.forward (DenseLayer.init nIn nNeu W) x)
        δ).dinputs = some di ∧
      hasShape dw nIn nNeu ∧ db.length = nNeu ∧ hasShape di bD nIn ∧
      (∀ p < nIn, ∀ q < nNeu, entry dw p q
        = Finset.sum (Finset.range bD) fun i => entry x i p * entry δ i q) ∧
      (∀ q < nNeu, db.getD q 0
        = Finset.sum (Finset.range bD) fun i => entry δ i q) ∧
      (∀ i < bD, ∀ p < nIn, entry di i p
        = Finset.sum (Finset.range nNeu) fun q => entry δ i q * entry W p q) :=
  dense_backward_spec W x δ hW hx hδ hpb hpi hpn

/-- Witness for C7: the spec's concrete scenario `weights = [[1,0],[0,1]]`,
`inputs = [[2,3]]`, `delta = [[1,1]]`. -/
theorem spec_C7_dense_backward_witness :
    hasShape [[(1:ℤ),0],[0,1]] 2 2 ∧ hasShape [[(2:ℤ),3]] 1 2 ∧
    hasShape [[(1:ℤ),1]] 1 2 ∧
    (∃ dw db di,
      (DenseLayer.backward (DenseLayer.forward
        (DenseLayer.init 2 2 [[(1:ℤ),0],[0,1]]) [[(2:ℤ),3]])
        [[(1:ℤ),1]]).dweights = some dw ∧
      (DenseLayer.backward (DenseLayer.forward
        (DenseLayer.init 2 2 [[(1:ℤ),0],[0,1]]) [[(2:ℤ),3]])
        [[(1:ℤ),1]]).dbiases = some db ∧
      (DenseLayer.backward (DenseLayer.forward
        (DenseLayer.init 2 2 [[(1:ℤ),0],[0,1]]) [[(2:ℤ),3]])
        [[(1:ℤ),1]]).dinputs = some di ∧
      hasShape dw 2 2 ∧ db.length = 2 ∧ hasShape di 1 2 ∧
      (∀ p < 2, ∀ q < 2, entry dw p q
        = Finset.sum (Finset.range 1) fun i =>
            entry [[(2:ℤ),3]] i p * entry [[(1:ℤ),1]] i q) ∧
      (∀ q < 2, db.getD q 0
        = Finset.sum (Finset.range 1) fun i => entry [[(1:ℤ),1]] i q) ∧
      (∀ i < 1, ∀ p < 2, entry di i p
        = Finset.sum (Finset.range 2) fun q =>
            entry [[(1:ℤ),1]] i q * entry [[(1:ℤ),0],[0,1]] p q)) :=
  ⟨by decide, by decide, by decide,
    spec_C7_dense_backward [[(1:ℤ),0],[0,1]] [[(2:ℤ),3]] [[(1:ℤ),1]]
      (by decide) (by decide) (by decide) (by decide) (by decide) (by decide)⟩

/-- Claim C9: neither forward nor backward of any layer modifies the layer's
own parameters: DenseLayer's weights and biases and ConvolutionalLayer's
kernels and biases are identical before and after every forward and every
backward call (whether the backward call returns normally or raises), and
ReshapeLayer's configuration is likewise untouched. -/
theorem spec_C9_params_frozen :
    (∀ (L : DenseLayer) (x δ : Mat),
      (L.forward x).weights = L.weights ∧ (L.forward x).biases = L.biases ∧
      (L.backward δ).weights = L.weights ∧ (L.backward δ).biases = L.biases) ∧
    (∀ (L : ConvolutionalLayer) (x δ : Tensor4),
      (L.forward x).kernels = L.kernels ∧ (L.forward x).biases = L.biases ∧
      (stateOf (L.backward δ)).kernels = L.kernels ∧
      (stateOf (L.backward δ)).biases = L.biases) ∧
    (∀ (L : ReshapeLayer) (x : Tensor4) (δ : Mat),
      (L.forward x).input_shape = L.input_shape ∧
      (L.forward x).output_shape = L.output_shape ∧
      (L.backward δ).input_shape = L.input_shape ∧
      (L.backward δ).output_shape = L.output_shape) := by
  refine ⟨fun L x δ => ⟨rfl, rfl, rfl, rfl⟩, fun L x δ => ⟨rfl, rfl, ?_, ?_⟩,
    fun L x δ => ⟨rfl, rfl, rfl, rfl⟩⟩
  · exact (backwardWith_state (fun inputs => convStepJK L inputs δ) L δ).1
  · exact (backwardWith_state (fun inputs => convStepJK L inputs δ) L δ).2.1

/-- Claim C8: for every ReshapeLayer constructed with a consistent
`input_shape = (d, h, w)` / `output_shape = d * h * w` pair and every tensor
of shape `[batch, d, h, w]`, calling forward and then backward on forward's
stored output yields `dinputs` identical to the original tensor in both shape
and content: the reshape round-trip is lossless. -/
theorem spec_C8_reshape_roundtrip (d h w b osh : ℕ) (x : Tensor4)
    (hx : Shape4 x b d h w) (hosh : osh = d * h * w) :
    ReshapeLayer.dinputs (ReshapeLayer.backward
      (ReshapeLayer.forward (ReshapeLayer.init (d, h, w) osh) x)
      (Option.getD (ReshapeLayer.output
        (ReshapeLayer.forward (ReshapeLayer.init (d, h, w) osh) x)) []))
      = some x := by
  show some ((x.map flattenSample).map (unflattenSample d h w)) = some x
  rw [List.map_map]
  congr 1
  have hpt : ∀ s ∈ x, (unflattenSample d h w ∘ flattenSample) s = s :=
    fun s hs => unflatten_flatten (hx.2 s hs)
  rw [List.map_congr_left hpt]
  exact List.map_id' x

/-- Witness for C8 at a concrete 1-sample 1x2x2 tensor. -/
theorem spec_C8_reshape_roundtrip_witness :
    Shape4 [[[[(1:ℤ),2],[3,4]]]] 1 1 2 2 ∧ (4 : ℕ) = 1 * 2 * 2 ∧
    ReshapeLayer.dinputs (ReshapeLayer.backward
      (ReshapeLayer.forward (ReshapeLayer.init (1, 2, 2) 4)
        [[[[(1:ℤ),2],[3,4]]]])
      (Option.getD (ReshapeLayer.output
        (ReshapeLayer.forward (ReshapeLayer.init (1, 2, 2) 4)
          [[[[(1:ℤ),2],[3,4]]]])) []))
      = some [[[[(1:ℤ),2],[3,4]]]] :=
  ⟨by decide, by decide,
    spec_C8_reshape_roundtrip 1 2 2 1 4 [[[[(1:ℤ),2],[3,4]]]]
      (by decide) (by decide)⟩

/-- Claim C10: ReshapeLayer.backward succeeds without any prior forward call:
on a freshly constructed layer (whose `output` and `dinputs` are still unset)
and any delta of shape `[batch, d * h * w]`, it sets `dinputs` to delta
reshaped to `[batch, d, h, w]` (stated entrywise, row-major), and it reads
only delta and the `input_shape` fixed at construction: any two layers with
the same `input_shape` produce identical `dinputs`. -/
theorem spec_C10_reshape_backward (d h w osh b : ℕ) (δ : Mat)
    (hδ : hasShape δ b (d * h * w)) :
    (ReshapeLayer.init (d, h, w) osh).output = none ∧
    (ReshapeLayer.init (d, h, w) osh).dinputs = none ∧
    (∃ DI, (ReshapeLayer.backward (ReshapeLayer.init (d, h, w) osh) δ).dinputs
        = some DI ∧ Shape4 DI b d h w ∧
      ∀ a < b, ∀ c < d, ∀ y < h, ∀ z < w,
        entry4 DI a c y z
          = (δ.getD a []).getD (c * (h * w) + y * w + z) 0) ∧
    (∀ (L2 : ReshapeLayer), L2.input_shape = (d, h, w) →
      (ReshapeLayer.backward L2 δ).dinputs
        = (ReshapeLayer.backward (ReshapeLayer.init (d, h, w) osh) δ).dinputs) := by
  refine ⟨rfl, rfl, ⟨δ.map (unflattenSample d h w), rfl, ?_, ?_⟩, ?_⟩
  · constructor
    · rw [List.length_map, hδ.1]
    · intro s hs
      simp only [List.mem_map] at hs
      obtain ⟨row, _, rfl⟩ := hs
      exact unflattenSample_Shape d h w row
  · intro a ha c hc y hy z hz
    have halen : a < δ.length := by rw [hδ.1]; exact ha
    unfold entry4 getM4
    rw [getD_map (unflattenSample d h w) halen [] []]
    unfold unflattenSample
    rw [getD_rangeMap, if_pos hc]
    rw [entry_mk2_in h w _ hy hz]
  · intro L2 hL2
    show some (δ.map (unflattenSample L2.input_shape.1 L2.input_shape.2.1
      L2.input_shape.2.2)) = _
    rw [hL2]
    rfl

/-- Witness for C10 at a concrete fresh layer and 1x2 delta. -/
theorem spec_C10_reshape_backward_witness :
    hasShape [[(5:ℤ),7]] 1 (2 * 1 * 1) ∧
    ((ReshapeLayer.init (2, 1, 1) 2).output = none ∧
      (ReshapeLayer.init (2, 1, 1) 2).dinputs = none ∧
      (∃ DI, (ReshapeLayer.backward (ReshapeLayer.init (2, 1, 1) 2)
          [[(5:ℤ),7]]).dinputs = some DI ∧ Shape4 DI 1 2 1 1 ∧
        ∀ a < 1, ∀ c < 2, ∀ y < 1, ∀ z < 1,
          entry4 DI a c y z
            = ([[(5:ℤ),7]].getD a []).getD (c * (1 * 1) + y * 1 + z) 0) ∧
      (∀ (L2 : ReshapeLayer), L2.input_shape = (2, 1, 1) →
        (ReshapeLayer.backward L2 [[(5:ℤ),7]]).dinputs
          = (ReshapeLayer.backward (ReshapeLayer.init (2, 1, 1) 2)
              [[(5:ℤ),7]]).dinputs)) :=
  ⟨by decide, spec_C10_reshape_backward 2 1 1 2 1 [[(5:ℤ),7]] (by decide)⟩

theorem ne_of_isErr_ne {α β : Type} {a b : Except α β}
    (ha : isErr a = true) (hb : isErr b = false) : a ≠ b := by
  intro h
  rw [h, hb] at ha
  exact Bool.noConfusion ha

/-- Claim C1, evaluated on the code at the failing input
`ConvolutionalLayer(input_shape=(1,4,4), output_channels=1, kernel_size=2,
stride=2)` with upstream gradient `[[1,0],[0,0]]`: the dilated gradient's
spatial size `(3, 3)` equals `input_size - kernel_size + 1 = 3`, the case in
which the claim says the layer correlates directly without padding — yet the
code's branch condition compares the shape tuple with that integer
(`pyTupleEqInt`), which is always `False`, so the padding branch runs
unconditionally.  Padding a `(3, 3)` array to `(3, 3)` is the identity, so
the call still succeeds and `dkernels` equals the direct correlation of the
stored input with the dilated gradient. -/
theorem spec_C1_kernel_grad_branch :
    matH (dilate [[(1:ℤ),0],[0,0]] 2) = 4 - 2 + 1 ∧
    matW (dilate [[(1:ℤ),0],[0,0]] 2) = 4 - 2 + 1 ∧
    pyTupleEqInt (matH (dilate [[(1:ℤ),0],[0,0]] 2),
      matW (dilate [[(1:ℤ),0],[0,0]] 2)) (4 - 2 + 1) = false ∧
    isErr (ConvolutionalLayer.backward
      (ConvolutionalLayer.forward
        (ConvolutionalLayer.init (1, 4, 4) 1 2 2 [[[[(1:ℤ),1],[1,1]]]]
          [[[(0:ℤ),0],[0,0]]])
        [[[[(1:ℤ),2,3,4],[5,6,7,8],[9,10,11,12],[13,14,15,16]]]])
      [[[[(1:ℤ),0],[0,0]]]]) = false ∧
    (stateOf (ConvolutionalLayer.backward
      (ConvolutionalLayer.forward
        (ConvolutionalLayer.init (1, 4, 4) 1 2 2 [[[[(1:ℤ),1],[1,1]]]]
          [[[(0:ℤ),0],[0,0]]])
        [[[[(1:ℤ),2,3,4],[5,6,7,8],[9,10,11,12],[13,14,15,16]]]])
      [[[[(1:ℤ),0],[0,0]]]])).dkernels
      = some [[[[(1:ℤ),2],[5,6]]]] ∧
    correlate2dValid [[(1:ℤ),2,3,4],[5,6,7,8],[9,10,11,12],[13,14,15,16]]
      (dilate [[(1:ℤ),0],[0,0]] 2) = [[(1:ℤ),2],[5,6]] := by decide

/-- Claim C3 counterexample: a ConvolutionalLayer with a non-square input
`(1, 3, 5)` and stride 2 — a configuration the claim explicitly includes —
whose backward call after a matching forward raises inside `pad_to_shape`
(the dilated gradient is `1 × 3` but the square padding target built from
the input HEIGHT only is `2 × 2`), so no gradients with the claimed shapes
are produced at all. -/
theorem spec_C3_counterexample :
    (ConvolutionalLayer.init (1, 3, 5) 1 2 2 [[[[(1:ℤ),0],[0,1]]]]
      [[[(0:ℤ),0]]]).stride = 2 ∧
    isErr (ConvolutionalLayer.backward
      (ConvolutionalLayer.forward
        (ConvolutionalLayer.init (1, 3, 5) 1 2 2 [[[[(1:ℤ),0],[0,1]]]]
          [[[(0:ℤ),0]]])
        [[[[(1:ℤ),2,3,4,5],[6,7,8,9,10],[11,12,13,14,15]]]])
      [[[[(1:ℤ),2]]]]) = true := by decide

/-- Claim C3 (amended): the gradient shape law holds for every DenseLayer and
every ReshapeLayer, and for every ConvolutionalLayer whose stride is 1 or
whose spatial input is square: after backward following a matching forward,
`dinputs` has exactly the input's shape, `dweights`/`dkernels` exactly the
parameter's shape and `dbiases` exactly the biases' shape, for every batch
size (positive, for the dense layer).  For stride > 1 with a non-square
input the convolutional backward can instead fail in `pad_to_shape`
(see the counterexample). -/
theorem spec_C3_shape_law
    {nIn nNeu bD : ℕ} (W xd δd : Mat)
    (hW : hasShape W nIn nNeu) (hxd : hasShape xd bD nIn)
    (hδd : hasShape δd bD nNeu) (hpb : 0 < bD) (hpi : 0 < nIn)
    (hpn : 0 < nNeu)
    (ic ih iw oc ks s n : ℕ) (K : Tensor4) (B : Tensor3) (xc Δ : Tensor4)
    (hK : Shape4 K oc ic ks ks)
    (hB : Shape3 B oc ((ih - ks) / s + 1) ((iw - ks) / s + 1))
    (hxc : Shape4 xc n ic ih iw)
    (hΔ : Shape4 Δ n oc ((ih - ks) / s + 1) ((iw - ks) / s + 1))
    (hks : 1 ≤ ks) (hkih : ks ≤ ih) (hkiw : ks ≤ iw)
    (hsq : s = 1 ∨ ih = iw)
    (d h w b osh : ℕ) (δr : Mat) (hδr : hasShape δr b (d * h * w)) :
    (∃ dw db di,
      DenseLayer.dweights (DenseLayer.backward (DenseLayer.forward
        (DenseLayer.init nIn nNeu W) xd) δd) = some dw ∧
      DenseLayer.dbiases (DenseLayer.backward (DenseLayer.forward
        (DenseLayer.init nIn nNeu W) xd) δd) = some db ∧
      DenseLayer.dinputs (DenseLayer.backward (DenseLayer.forward
        (DenseLayer.init nIn nNeu W) xd) δd) = some di ∧
      hasShape dw nIn nNeu ∧ db.length = nNeu ∧ hasShape di bD nIn) ∧
    (∃ M, ConvolutionalLayer.backward (ConvolutionalLayer.forward
        (ConvolutionalLayer.init (ic, ih, iw) oc ks s K B) xc) Δ
        = Except.ok M ∧
      (∃ dk, M.dkernels = some dk ∧ Shape4 dk oc ic ks ks) ∧
      (∃ db2, M.dbiases = some db2 ∧
        Shape3 db2 oc ((ih - ks) / s + 1) ((iw - ks) / s + 1)) ∧
      (∃ di2, M.dinputs = some di2 ∧ Shape4 di2 n ic ih iw)) ∧
    (∃ DI, ReshapeLayer.dinputs (ReshapeLayer.backward
        (ReshapeLayer.init (d, h, w) osh) δr) = some DI ∧
      Shape4 DI b d h w) := by
  refine ⟨?_, ?_, ?_⟩
  · obtain ⟨dw, db, di, h1, h2, h3, h4, h5, h6, _, _, _⟩ :=
      dense_backward_spec W xd δd hW hxd hδd hpb hpi hpn
    exact ⟨dw, db, di, h1, h2, h3, h4, h5, h6⟩
  · obtain ⟨M, hM, hdk, hdb, hdi, _, _, _⟩ :=
      conv_backward_ok (ConvolutionalLayer.forward
          (ConvolutionalLayer.init (ic, ih, iw) oc ks s K B) xc) xc Δ
        rfl hxc hK hB hΔ rfl rfl hks hkih hkiw hsq
    exact ⟨M, hM, hdk, hdb, hdi⟩
  · refine ⟨δr.map (unflattenSample d h w), rfl, ?_⟩
    constructor
    · rw [List.length_map, hδr.1]
    · intro s2 hs2
      simp only [List.mem_map] at hs2
      obtain ⟨row, _, rfl⟩ := hs2
      exact unflattenSample_Shape d h w row

/-- Witness for the amended C3 at concrete one-element layers of every
variant (conv at stride 1). -/
theorem spec_C3_shape_law_witness :
    hasShape [[(2:ℤ)]] 1 1 ∧ hasShape [[(3:ℤ)]] 1 1 ∧ hasShape [[(4:ℤ)]] 1 1 ∧
    Shape4 [[[[(2:ℤ)]]]] 1 1 1 1 ∧ Shape3 [[[(3:ℤ)]]] 1 ((1-1)/1+1) ((1-1)/1+1) ∧
    Shape4 [[[[(4:ℤ)]]]] 1 1 1 1 ∧ Shape4 [[[[(5:ℤ)]]]] 1 1 ((1-1)/1+1) ((1-1)/1+1) ∧
    hasShape [[(9:ℤ)]] 1 (1 * 1 * 1) ∧
    ((∃ dw db di,
      DenseLayer.dweights (DenseLayer.backward (DenseLayer.forward
        (DenseLayer.init 1 1 [[(2:ℤ)]]) [[(3:ℤ)]]) [[(4:ℤ)]]) = some dw ∧
      DenseLayer.dbiases (DenseLayer.backward (DenseLayer.forward
        (DenseLayer.init 1 1 [[(2:ℤ)]]) [[(3:ℤ)]]) [[(4:ℤ)]]) = some db ∧
      DenseLayer.dinputs (DenseLayer.backward (DenseLayer.forward
        (DenseLayer.init 1 1 [[(2:ℤ)]]) [[(3:ℤ)]]) [[(4:ℤ)]]) = some di ∧
      hasShape dw 1 1 ∧ db.length = 1 ∧ hasShape di 1 1) ∧
    (∃ M, ConvolutionalLayer.backward (ConvolutionalLayer.forward
        (ConvolutionalLayer.init (1, 1, 1) 1 1 1 [[[[(2:ℤ)]]]] [[[(3:ℤ)]]])
        [[[[(4:ℤ)]]]]) [[[[(5:ℤ)]]]] = Except.ok M ∧
      (∃ dk, M.dkernels = some dk ∧ Shape4 dk 1 1 1 1) ∧
      (∃ db2, M.dbiases = some db2 ∧
        Shape3 db2 1 ((1-1)/1+1) ((1-1)/1+1)) ∧
      (∃ di2, M.dinputs = some di2 ∧ Shape4 di2 1 1 1 1)) ∧
    (∃ DI, ReshapeLayer.dinputs (ReshapeLayer.backward
        (ReshapeLayer.init (1, 1, 1) 1) [[(9:ℤ)]]) = some DI ∧
      Shape4 DI 1 1 1 1)) :=
  ⟨by decide, by decide, by decide, by decide, by decide, by decide, by decide,
    by decide,
    spec_C3_shape_law [[(2:ℤ)]] [[(3:ℤ)]] [[(4:ℤ)]]
      (by decide) (by decide) (by decide) (by decide) (by decide) (by decide)
      1 1 1 1 1 1 1 [[[[(2:ℤ)]]]] [[[(3:ℤ)]]] [[[[(4:ℤ)]]]] [[[[(5:ℤ)]]]]
      (by decide) (by decide) (by decide) (by decide) (by decide) (by decide)
      (by decide) (Or.inl rfl)
      1 1 1 1 1 [[(9:ℤ)]] (by decide)⟩

/-- Claim C4 counterexample: at stride 1 on a non-square input `(1, 3, 5)`,
the dilate/pad general path fails inside `pad_to_shape` (the square padding
target `2 × 2` built from the input height cannot hold the `2 × 4` gradient),
while the direct stride-1 path of `ConvolutionalLayer.backward` succeeds, so
the two paths do not compute the same gradients. -/
theorem spec_C4_counterexample :
    (ConvolutionalLayer.init (1, 3, 5) 1 2 1 [[[[(1:ℤ),1],[1,1]]]]
      [[[(0:ℤ),0,0,0],[0,0,0,0]]]).stride = 1 ∧
    isErr (ConvolutionalLayer.backwardAllStrided
      (ConvolutionalLayer.forward
        (ConvolutionalLayer.init (1, 3, 5) 1 2 1 [[[[(1:ℤ),1],[1,1]]]]
          [[[(0:ℤ),0,0,0],[0,0,0,0]]])
        [[[[(1:ℤ),1,1,1,1],[1,1,1,1,1],[1,1,1,1,1]]]])
      [[[[(1:ℤ),1,1,1],[1,1,1,1]]]]) = true ∧
    isErr (ConvolutionalLayer.backward
      (ConvolutionalLayer.forward
        (ConvolutionalLayer.init (1, 3, 5) 1 2 1 [[[[(1:ℤ),1],[1,1]]]]
          [[[(0:ℤ),0,0,0],[0,0,0,0]]])
        [[[[(1:ℤ),1,1,1,1],[1,1,1,1,1],[1,1,1,1,1]]]])
      [[[[(1:ℤ),1,1,1],[1,1,1,1]]]]) = false ∧
    ConvolutionalLayer.backwardAllStrided
      (ConvolutionalLayer.forward
        (ConvolutionalLayer.init (1, 3, 5) 1 2 1 [[[[(1:ℤ),1],[1,1]]]]
          [[[(0:ℤ),0,0,0],[0,0,0,0]]])
        [[[[(1:ℤ),1,1,1,1],[1,1,1,1,1],[1,1,1,1,1]]]])
      [[[[(1:ℤ),1,1,1],[1,1,1,1]]]]
      ≠ ConvolutionalLayer.backward
        (ConvolutionalLayer.forward
          (ConvolutionalLayer.init (1, 3, 5) 1 2 1 [[[[(1:ℤ),1],[1,1]]]]
            [[[(0:ℤ),0,0,0],[0,0,0,0]]])
          [[[[(1:ℤ),1,1,1,1],[1,1,1,1,1],[1,1,1,1,1]]]])
        [[[[(1:ℤ),1,1,1],[1,1,1,1]]]] :=
  ⟨rfl, by decide, by decide, ne_of_isErr_ne (by decide) (by decide)⟩

/-- Claim C4 (amended): for a ConvolutionalLayer with stride 1 on a SQUARE
spatial input, the dilate step is the identity (stated for every rectangular
array) and the general dilate/pad backward path instantiated at stride 1
computes exactly the same result — the same `dkernels`, `dbiases` and
`dinputs`, with no exception — as the direct stride-1 path taken by
`ConvolutionalLayer.backward`.  (On non-square inputs the general path
instead fails in `pad_to_shape`; see the counterexample.) -/
theorem spec_C4_stride1_equiv (ic ih iw oc ks n : ℕ) (K : Tensor4)
    (B : Tensor3) (x δ : Tensor4)
    (hK : Shape4 K oc ic ks ks)
    (hB : Shape3 B oc (ih - ks + 1) (iw - ks + 1))
    (hx : Shape4 x n ic ih iw)
    (hδ : Shape4 δ n oc (ih - ks + 1) (iw - ks + 1))
    (hks : 1 ≤ ks) (hkih : ks ≤ ih) (hsq : ih = iw) :
    ConvolutionalLayer.backwardAllStrided
        (ConvolutionalLayer.forward
          (ConvolutionalLayer.init (ic, ih, iw) oc ks 1 K B) x) δ
      = ConvolutionalLayer.backward
          (ConvolutionalLayer.forward
            (ConvolutionalLayer.init (ic, ih, iw) oc ks 1 K B) x) δ ∧
    (∀ (m : Mat) (h2 w2 : ℕ), hasShape m h2 w2 → dilate m 1 = m) := by
  constructor
  · exact conv_backwardAllStrided_eq
      (ConvolutionalLayer.forward
        (ConvolutionalLayer.init (ic, ih, iw) oc ks 1 K B) x) x δ
      rfl rfl hx hK hB hδ rfl rfl hsq hks hkih
  · intro m h2 w2 hm
    exact dilate_one hm

/-- Witness for the amended C4 at a concrete square 2x2 input. -/
theorem spec_C4_stride1_equiv_witness :
    Shape4 [[[[(1:ℤ),2],[3,4]]]] 1 1 2 2 ∧ Shape3 [[[(5:ℤ)]]] 1 (2-2+1) (2-2+1) ∧
    Shape4 [[[[(1:ℤ),0],[0,1]]]] 1 1 2 2 ∧ Shape4 [[[[(2:ℤ)]]]] 1 1 (2-2+1) (2-2+1) ∧
    (ConvolutionalLayer.backwardAllStrided
        (ConvolutionalLayer.forward
          (ConvolutionalLayer.init (1, 2, 2) 1 2 1 [[[[(1:ℤ),2],[3,4]]]]
            [[[(5:ℤ)]]]) [[[[(1:ℤ),0],[0,1]]]]) [[[[(2:ℤ)]]]]
      = ConvolutionalLayer.backward
          (ConvolutionalLayer.forward
            (ConvolutionalLayer.init (1, 2, 2) 1 2 1 [[[[(1:ℤ),2],[3,4]]]]
              [[[(5:ℤ)]]]) [[[[(1:ℤ),0],[0,1]]]]) [[[[(2:ℤ)]]]] ∧
      (∀ (m : Mat) (h2 w2 : ℕ), hasShape m h2 w2 → dilate m 1 = m)) :=
  ⟨by decide, by decide, by decide, by decide,
    spec_C4_stride1_equiv 1 2 2 1 2 1 [[[[(1:ℤ),2],[3,4]]]] [[[(5:ℤ)]]]
      [[[[(1:ℤ),0],[0,1]]]] [[[[(2:ℤ)]]]]
      (by decide) (by decide) (by decide) (by decide) (by decide) (by decide)
      (by decide)⟩

/-- Claim C5 counterexample: constructing a ConvolutionalLayer with
`input_shape = (1, 3, 3)` and `kernel_size = 4` (larger than the input's
spatial extent, with output size `floor((3-4)/1)+1 = 0`) does not fail at
all: no dimension of either allocation is negative, so both `randn` calls
succeed and the constructor completes normally, storing a silently empty
(zero-sized) output shape. -/
theorem spec_C5_counterexample :
    ConvolutionalLayer.initE (1, 3, 3) 1 4 1 [] []
      = Except.ok (ConvolutionalLayer.init (1, 3, 3) 1 4 1 [] []) ∧
    (ConvolutionalLayer.init (1, 3, 3) 1 4 1 [] []).output_height = 0 ∧
    (ConvolutionalLayer.init (1, 3, 3) 1 4 1 [] []).output_width = 0 ∧
    (ConvolutionalLayer.init (1, 3, 3) 1 4 1 [] []).kernel_size = 4 ∧
    (ConvolutionalLayer.init (1, 3, 3) 1 4 1 [] []).stride = 1 :=
  ⟨rfl, by decide, by decide, by decide, by decide⟩

/-- Claim C5 (amended): `__init__` performs no validation: for every input
shape, every positive stride and `kernel_size = input_height + 1` (kernel
larger than the input), whenever the computed `output_width` is non-negative
— so the `np.random.randn` allocations succeed — construction completes
normally with `output_height = 0`, a silently empty output shape, instead of
raising a ConfigurationError.  (When a computed output dimension is negative
the constructor does fail, but with an incidental ValueError from the biases
allocation, still not the claimed ConfigurationError.) -/
theorem spec_C5_no_validation (ic ih iw oc s : ℕ) (K : Tensor4) (B : Tensor3)
    (hs : 0 < s)
    (hw : 0 ≤ (ConvolutionalLayer.init (ic, ih, iw) oc (ih + 1) s K
      B).output_width) :
    ConvolutionalLayer.initE (ic, ih, iw) oc (ih + 1) s K B
      = Except.ok (ConvolutionalLayer.init (ic, ih, iw) oc (ih + 1) s K B) ∧
    (ConvolutionalLayer.init (ic, ih, iw) oc (ih + 1) s K B).output_height
      = 0 ∧
    (ConvolutionalLayer.init (ic, ih, iw) oc (ih + 1) s K B).kernel_size
      = ih + 1 := by
  have hoh : (ConvolutionalLayer.init (ic, ih, iw) oc (ih + 1) s K
      B).output_height = 0 := by
    show Int.fdiv ((ih : ℤ) - ((ih + 1 : ℕ) : ℤ)) ((s : ℕ) : ℤ) + 1 = 0
    have h1 : ((ih : ℤ) - ((ih + 1 : ℕ) : ℤ)) = -1 := by push_cast; ring
    rw [h1]
    cases s with
    | zero => omega
    | succ m =>
      have h2 : Int.fdiv (-1) ((m + 1 : ℕ) : ℤ) = Int.negSucc (0 / (m + 1)) :=
        rfl
      rw [h2, Nat.zero_div]
      decide
  have hnot : ¬ ((ConvolutionalLayer.init (ic, ih, iw) oc (ih + 1) s K
        B).output_height < 0 ∨
      (ConvolutionalLayer.init (ic, ih, iw) oc (ih + 1) s K
        B).output_width < 0) := by
    rw [hoh]
    rintro (h | h)
    · exact absurd h (by decide)
    · omega
  refine ⟨?_, hoh, rfl⟩
  simp only [ConvolutionalLayer.initE]
  rw [if_neg hnot]

/-- Witness for the amended C5 at a concrete configuration. -/
theorem spec_C5_no_validation_witness :
    0 < 2 ∧
    0 ≤ (ConvolutionalLayer.init (1, 3, 3) 1 (3 + 1) 2 [] []).output_width ∧
    (ConvolutionalLayer.initE (1, 3, 3) 1 (3 + 1) 2 [] []
        = Except.ok (ConvolutionalLayer.init (1, 3, 3) 1 (3 + 1) 2 [] []) ∧
      (ConvolutionalLayer.init (1, 3, 3) 1 (3 + 1) 2 [] []).output_height
        = 0 ∧
      (ConvolutionalLayer.init (1, 3, 3) 1 (3 + 1) 2 [] []).kernel_size
        = 3 + 1) :=
  ⟨by decide, by decide,
    spec_C5_no_validation 1 3 3 1 2 [] [] (by decide) (by decide)⟩

/-- Claim C6 counterexample: a backward call that raises (non-square input,
stride 2, failing in `pad_to_shape`) does NOT leave the layer's attributes as
they were: before the call `dbiases` was unset (`none`), after the raising
call it holds the partially accumulated sum of deltas. -/
theorem spec_C6_counterexample :
    isErr (ConvolutionalLayer.backward
      (ConvolutionalLayer.forward
        (ConvolutionalLayer.init (1, 3, 5) 1 2 2 [[[[(1:ℤ),1],[1,1]]]]
          [[[(0:ℤ),5]]])
        [[[[(1:ℤ),2,3,4,5],[6,7,8,9,10],[11,12,13,14,15]]]])
      [[[[(2:ℤ),3]]]]) = true ∧
    ConvolutionalLayer.dbiases
      (ConvolutionalLayer.forward
        (ConvolutionalLayer.init (1, 3, 5) 1 2 2 [[[[(1:ℤ),1],[1,1]]]]
          [[[(0:ℤ),5]]])
        [[[[(1:ℤ),2,3,4,5],[6,7,8,9,10],[11,12,13,14,15]]]]) = none ∧
    (stateOf (ConvolutionalLayer.backward
      (ConvolutionalLayer.forward
        (ConvolutionalLayer.init (1, 3, 5) 1 2 2 [[[[(1:ℤ),1],[1,1]]]]
          [[[(0:ℤ),5]]])
        [[[[(1:ℤ),2,3,4,5],[6,7,8,9,10],[11,12,13,14,15]]]])
      [[[[(2:ℤ),3]]]])).dbiases
      ≠ ConvolutionalLayer.dbiases
        (ConvolutionalLayer.forward
          (ConvolutionalLayer.init (1, 3, 5) 1 2 2 [[[[(1:ℤ),1],[1,1]]]]
            [[[(0:ℤ),5]]])
          [[[[(1:ℤ),2,3,4,5],[6,7,8,9,10],[11,12,13,14,15]]]]) := by decide

/-- Claim C6 (amended): backward calls are not transactional:
`ConvolutionalLayer.backward` overwrites `dkernels` and `dbiases` with fresh
arrays before any failure point can be reached, so after a call that raises
those attributes are set (and, when they were unset before the call, they
necessarily differ from their pre-call values); the raising call does not
restore prior state. -/
theorem spec_C6_failed_backward_state (L : ConvolutionalLayer) (δ : Tensor4)
    (h : isErr (ConvolutionalLayer.backward L δ) = true) :
    (stateOf (ConvolutionalLayer.backward L δ)).dkernels.isSome = true ∧
    (stateOf (ConvolutionalLayer.backward L δ)).dbiases.isSome = true ∧
    (L.dkernels = none →
      (stateOf (ConvolutionalLayer.backward L δ)).dkernels ≠ L.dkernels) ∧
    (L.dbiases = none →
      (stateOf (ConvolutionalLayer.backward L δ)).dbiases ≠ L.dbiases) := by
  have hs := backwardWith_state (fun inputs => convStepJK L inputs δ) L δ
  refine ⟨hs.2.2.2.2.1, hs.2.2.2.2.2, ?_, ?_⟩
  · intro hn hc
    have h2 : (stateOf (ConvolutionalLayer.backward L δ)).dkernels.isSome
        = true := hs.2.2.2.2.1
    rw [hn] at hc
    rw [hc] at h2
    simp at h2
  · intro hn hc
    have h2 : (stateOf (ConvolutionalLayer.backward L δ)).dbiases.isSome
        = true := hs.2.2.2.2.2
    rw [hn] at hc
    rw [hc] at h2
    simp at h2

/-- Witness for the amended C6 at a concrete raising backward call. -/
theorem spec_C6_failed_backward_state_witness :
    isErr (ConvolutionalLayer.backward
      (ConvolutionalLayer.forward
        (ConvolutionalLayer.init (1, 3, 5) 1 2 2 [[[[(2:ℤ),0],[0,2]]]]
          [[[(1:ℤ),1]]])
        [[[[(1:ℤ),1,1,1,1],[1,1,1,1,1],[1,1,1,1,1]]]])
      [[[[(3:ℤ),4]]]]) = true ∧
    ((stateOf (ConvolutionalLayer.backward
      (ConvolutionalLayer.forward
        (ConvolutionalLayer.init (1, 3, 5) 1 2 2 [[[[(2:ℤ),0],[0,2]]]]
          [[[(1:ℤ),1]]])
        [[[[(1:ℤ),1,1,1,1],[1,1,1,1,1],[1,1,1,1,1]]]])
      [[[[(3:ℤ),4]]]])).dkernels.isSome = true ∧
    (stateOf (ConvolutionalLayer.backward
      (ConvolutionalLayer.forward
        (ConvolutionalLayer.init (1, 3, 5) 1 2 2 [[[[(2:ℤ),0],[0,2]]]]
          [[[(1:ℤ),1]]])
        [[[[(1:ℤ),1,1,1,1],[1,1,1,1,1],[1,1,1,1,1]]]])
      [[[[(3:ℤ),4]]]])).dbiases.isSome = true ∧
    (ConvolutionalLayer.dkernels
      (ConvolutionalLayer.forward
        (ConvolutionalLayer.init (1, 3, 5) 1 2 2 [[[[(2:ℤ),0],[0,2]]]]
          [[[(1:ℤ),1]]])
        [[[[(1:ℤ),1,1,1,1],[1,1,1,1,1],[1,1,1,1,1]]]]) = none →
      (stateOf (ConvolutionalLayer.backward
        (ConvolutionalLayer.forward
          (ConvolutionalLayer.init (1, 3, 5) 1 2 2 [[[[(2:ℤ),0],[0,2]]]]
            [[[(1:ℤ),1]]])
          [[[[(1:ℤ),1,1,1,1],[1,1,1,1,1],[1,1,1,1,1]]]])
        [[[[(3:ℤ),4]]]])).dkernels
        ≠ ConvolutionalLayer.dkernels
          (ConvolutionalLayer.forward
            (ConvolutionalLayer.init (1, 3, 5) 1 2 2 [[[[(2:ℤ),0],[0,2]]]]
              [[[(1:ℤ),1]]])
            [[[[(1:ℤ),1,1,1,1],[1,1,1,1,1],[1,1,1,1,1]]]])) ∧
    (ConvolutionalLayer.dbiases
      (ConvolutionalLayer.forward
        (ConvolutionalLayer.init (1, 3, 5) 1 2 2 [[[[(2:ℤ),0],[0,2]]]]
          [[[(1:ℤ),1]]])
        [[[[(1:ℤ),1,1,1,1],[1,1,1,1,1],[1,1,1,1,1]]]]) = none →
      (stateOf (ConvolutionalLayer.backward
        (ConvolutionalLayer.forward
          (ConvolutionalLayer.init (1, 3, 5) 1 2 2 [[[[(2:ℤ),0],[0,2]]]]
            [[[(1:ℤ),1]]])
          [[[[(1:ℤ),1,1,1,1],[1,1,1,1,1],[1,1,1,1,1]]]])
        [[[[(3:ℤ),4]]]])).dbiases
        ≠ ConvolutionalLayer.dbiases
          (ConvolutionalLayer.forward
            (ConvolutionalLayer.init (1, 3, 5) 1 2 2 [[[[(2:ℤ),0],[0,2]]]]
              [[[(1:ℤ),1]]])
            [[[[(1:ℤ),1,1,1,1],[1,1,1,1,1],[1,1,1,1,1]]]]))) :=
  ⟨by decide,
    spec_C6_failed_backward_state
      (ConvolutionalLayer.forward
        (ConvolutionalLayer.init (1, 3, 5) 1 2 2 [[[[(2:ℤ),0],[0,2]]]]
          [[[(1:ℤ),1]]])
        [[[[(1:ℤ),1,1,1,1],[1,1,1,1,1],[1,1,1,1,1]]]])
      [[[[(3:ℤ),4]]]] (by decide)⟩
